import Mathlib

/-!
Verification development for `point_cloud_colorize/las_colorize.py`.

The script is an orchestration shim: it discovers LAS/LAZ input files,
derives output file paths, builds a PDAL pipeline description (a JSON
document assembled by string formatting, with a JSON-encoded parameter
bundle escaped into it) and hands each description to the external PDAL
engine's validate-then-execute contract.

Modelling choices:
* A `pathlib.Path` is modelled by its list of components (`PPath`);
  `Path.name` is the last component, `Path.suffix` / `Path.stem` follow the
  `pathlib` definition (position of the last dot in the name), and `p / s`
  for a slash-free `s` appends one component.  `as_posix` joins the
  components with `/`.
* The filesystem is an oracle (`FileSystem`) supplying exactly the two
  queries the script makes: `is_dir` and `iterdir` (the entry names of a
  directory, in the order the listing yields them).  The script never
  queries file existence, so the model has no such field.
* The PDAL engine is an oracle (`Engine`) mapping a pipeline-description
  string to success (`none`) or a diagnostic message (`some msg`) for its
  `validate` and `execute` steps; these raise, which the embedding models
  as an `Option PCCError` result.  Engine invocations are recorded as an
  event trace (`EngineEvent`).
* Python `json.dumps` (default options: `ensure_ascii=True`, separators
  `", "` and `": "`, insertion key order) is embedded character by
  character.  The two numeric parameters (`wms_pixel_size`,
  `wms_max_image_size`) enter the bundle as the decimal rendering that
  `json.dumps` would produce for them, so they are carried as numeral
  strings.
* `verbose` only prints progress lines and is dropped from the embedding.
-/

/-! ### pathlib model -/

/-- Index of the last occurrence of `c` (Python `str.rfind`), if any. -/
def lastIdxOf (c : Char) : List Char → Option Nat
  | [] => none
  | a :: t =>
    match lastIdxOf c t with
    | some i => some (i + 1)
    | none => if a = c then some 0 else none

/-- `pathlib.PurePath.suffix` of a file name: the part of the name from its
last dot on, provided that dot is neither the first nor the last character;
otherwise the empty string. -/
def pySuffix (name : String) : String :=
  match lastIdxOf '.' name.data with
  | some i => if 0 < i ∧ i + 1 < name.data.length then String.mk (name.data.drop i) else ""
  | none => ""

/-- `pathlib.PurePath.stem` of a file name: the name up to its last dot,
under the same proviso as `pySuffix`; otherwise the whole name. -/
def pyStem (name : String) : String :=
  match lastIdxOf '.' name.data with
  | some i => if 0 < i ∧ i + 1 < name.data.length then String.mk (name.data.take i) else name
  | none => name

/-- A `pathlib.Path`, as its list of components. -/
abbrev PPath := List String

/-- `Path.name`: the final component (empty for a component-less path). -/
def PPath.name (p : PPath) : String := p.getLast?.getD ""

/-- `Path.as_posix`: components joined by `/`. -/
def PPath.asPosix (p : PPath) : String := String.intercalate "/" p

/-- `Path.suffix`. -/
def PPath.suffix (p : PPath) : String := pySuffix (PPath.name p)

/-- `Path.stem`. -/
def PPath.stem (p : PPath) : String := pyStem (PPath.name p)

/-! ### filesystem and engine oracles -/

/-- The two filesystem queries the script makes. -/
structure FileSystem where
  isDir : PPath → Bool
  entries : PPath → List String

/-- Outcome oracles for the external PDAL engine: `none` means the step
succeeds, `some msg` that it raises with diagnostic `msg`. -/
structure Engine where
  validateRes : String → Option String
  executeRes : String → Option String

/-- One engine invocation, carrying the pipeline description it was given. -/
inductive EngineEvent where
  | validate (pipeline : String)
  | execute (pipeline : String)
deriving DecidableEq

/-- The two error conditions of the script: `ValueError` for argument
mismatches (the spec's `InvalidArgument`) and an engine-raised failure
(the spec's `EngineError`). -/
inductive PCCError where
  | invalidArgument (msg : String)
  | engineError (msg : String)
deriving DecidableEq

/-! ### Python `json.dumps` embedding -/

/-- Lowercase hexadecimal digit. -/
def hexDigit (n : Nat) : Char := if n < 10 then Char.ofNat (48 + n) else Char.ofNat (87 + n)

/-- A `\uXXXX` escape for code unit `n < 0x10000`. -/
def uEsc (n : Nat) : List Char :=
  ['\\', 'u', hexDigit (n / 4096 % 16), hexDigit (n / 256 % 16), hexDigit (n / 16 % 16), hexDigit (n % 16)]

/-- How `json.dumps` (default `ensure_ascii=True`) renders one character of
a string: backslash escapes for quote, backslash and the short control
escapes, `\uXXXX` for other control and all non-ASCII characters
(surrogate pairs above the BMP), the character itself otherwise. -/
def pyEscChar (c : Char) : List Char :=
  if c = '\x22' then ['\\', '\x22']
  else if c = '\\' then ['\\', '\\']
  else if c = '\n' then ['\\', 'n']
  else if c = '\t' then ['\\', 't']
  else if c = '\r' then ['\\', 'r']
  else if c.toNat = 8 then ['\\', 'b']
  else if c.toNat = 12 then ['\\', 'f']
  else if c.toNat < 0x20 then uEsc c.toNat
  else if c.toNat < 0x7f then [c]
  else if c.toNat < 0x10000 then uEsc c.toNat
  else uEsc (0xd800 + (c.toNat - 0x10000) / 1024) ++ uEsc (0xdc00 + (c.toNat - 0x10000) % 1024)

/-- `json.dumps` escaping of a whole string (without the outer quotes). -/
def pyEscape (s : String) : String := String.mk (s.data.map pyEscChar).flatten

/-- A scalar value in the `pdalargs` dict: a Python string, or a number
carried as the numeral `json.dumps` renders it to. -/
inductive PyScalar where
  | pstr (s : String)
  | pnum (lit : String)
deriving DecidableEq

/-- `json.dumps` of one scalar. -/
def dumpScalar : PyScalar → String
  | .pstr s => "\x22" ++ pyEscape s ++ "\x22"
  | .pnum lit => lit

/-- `json.dumps` of one `key: value` pair (default item separator `": "`). -/
def dumpPair (kv : String × PyScalar) : String :=
  "\x22" ++ pyEscape kv.1 ++ "\x22" ++ ": " ++ dumpScalar kv.2

/-- `", ".join` of the dumped pairs. -/
def dumpPairs : List (String × PyScalar) → String
  | [] => ""
  | [kv] => dumpPair kv
  | kv :: rest => dumpPair kv ++ ", " ++ dumpPairs rest

/-- `json.dumps` of a flat string-keyed dict, with the default separators
`", "` and `": "` and insertion key order. -/
def pyJsonDumps (d : List (String × PyScalar)) : String :=
  "\x7b" ++ dumpPairs d ++ "\x7d"

/-- `.replace('"', '\\"')` from the source: every double quote becomes a
backslash-quote pair. -/
def escQuotes (s : String) : String :=
  String.mk (s.data.map fun c => if c = '\x22' then ['\\', '\x22'] else [c]).flatten

/-! ### the pipeline template

`PDAL_PIPELINE.format(...)` substitutes the five holes into the literal
template (with `{{`/`}}` unescaped to single braces); the result is the
concatenation of the six literal chunks of the template around the five
substituted values, in template order. -/

def pipeChunk0 : String :=
  "\x7b\n  \x22pipeline\x22:[\n    \x7b\n      \x22type\x22: \x22readers.las\x22,\n      \x22filename\x22: \x22"

def pipeChunk1 : String :=
  "\x22\n    \x7d,\n    \x7b\n      \x22type\x22: \x22filters.python\x22,\n      \x22script\x22: \x22"

def pipeChunk2 : String :=
  "/pdal_colorize.py\x22,\n      \x22function\x22: \x22las_colorize\x22,\n      \x22module\x22: \x22anything\x22,\n      \x22pdalargs\x22: \x22"

def pipeChunk3 : String :=
  "\x22\n    \x7d,\n    \x7b\n      \x22type\x22: \x22writers.las\x22,\n      \x22a_srs\x22: \x22"

def pipeChunk4 : String := "\x22,\n      \x22filename\x22: \x22"

def pipeChunk5 : String := "\x22\n    \x7d\n  ]\n\x7d"

/-- `PDAL_PIPELINE.format(input_file=…, output_file=…, srs=…, pdalargs=…,
directory=…)`, holes listed in template order. -/
def PDAL_PIPELINE_format (input_file directory pdalargs srs output_file : String) : String :=
  pipeChunk0 ++ input_file ++ pipeChunk1 ++ directory ++ pipeChunk2 ++ pdalargs ++
    pipeChunk3 ++ srs ++ pipeChunk4 ++ output_file ++ pipeChunk5

/-! ### `run_pdal` and `process_files` -/

/-- The eight caller-supplied WMS/SRS parameters of `run_pdal` (the two
numeric ones as the numerals `json.dumps` renders them to). -/
structure WmsParams where
  las_srs : String
  wms_url : String
  wms_layer : String
  wms_srs : String
  wms_version : String
  wms_format : String
  wms_pixel_size : String
  wms_max_image_size : String
deriving DecidableEq

/-- The `pdalargs` dict built at the top of `run_pdal`, in source order. -/
def pdalargsDict (P : WmsParams) : List (String × PyScalar) :=
  [("wms_url", .pstr P.wms_url), ("wms_layer", .pstr P.wms_layer),
   ("wms_srs", .pstr P.wms_srs), ("wms_version", .pstr P.wms_version),
   ("wms_format", .pstr P.wms_format), ("wms_pixel_size", .pnum P.wms_pixel_size),
   ("wms_max_image_size", .pnum P.wms_max_image_size), ("las_srs", .pstr P.las_srs)]

/-- The pipeline description string `run_pdal` assembles.  `scriptDir` is
`Path(__file__).parent.as_posix()`. -/
def pipelineJsonOf (scriptDir : String) (input_path output_path : PPath) (P : WmsParams) : String :=
  PDAL_PIPELINE_format (PPath.asPosix input_path) scriptDir
    (escQuotes (pyJsonDumps (pdalargsDict P))) P.las_srs (PPath.asPosix output_path)

/-- `run_pdal`: build the description, then `pipeline.validate()` and
`pipeline.execute()`; either step may raise.  Returns the engine-event
trace and the raised error, if any. -/
def run_pdal (eng : Engine) (scriptDir : String) (input_path output_path : PPath)
    (P : WmsParams) : List EngineEvent × Option PCCError :=
  let pipeline_json := pipelineJsonOf scriptDir input_path output_path P
  match eng.validateRes pipeline_json with
  | some msg => ([EngineEvent.validate pipeline_json], some (PCCError.engineError msg))
  | none =>
    match eng.executeRes pipeline_json with
    | some msg =>
        ([EngineEvent.validate pipeline_json, EngineEvent.execute pipeline_json],
          some (PCCError.engineError msg))
    | none =>
        ([EngineEvent.validate pipeline_json, EngineEvent.execute pipeline_json], none)

/-- Output file name `'{}_color{}'.format(f.stem, f.suffix)`. -/
def colorName (name : String) : String := pyStem name ++ "_color" ++ pySuffix name

/-- The `for f in input_path.iterdir()` loop of `process_files`, over the
remaining entry names.  A raised error (the `ValueError` for a
non-directory output, or an engine failure) aborts the remaining
iterations. -/
def runDirEntries (fs : FileSystem) (eng : Engine) (scriptDir : String)
    (input_path output_path : PPath) (P : WmsParams) :
    List String → List EngineEvent × Option PCCError
  | [] => ([], none)
  | name :: rest =>
    if pySuffix name = ".las" ∨ pySuffix name = ".laz" then
      if fs.isDir output_path then
        let r := run_pdal eng scriptDir (input_path ++ [name]) (output_path ++ [colorName name]) P
        match r.2 with
        | some e => (r.1, some e)
        | none =>
          let rr := runDirEntries fs eng scriptDir input_path output_path P rest
          (r.1 ++ rr.1, rr.2)
      else
        ([], some (PCCError.invalidArgument
          "Output path should be a directory if the input path is a directory."))
    else runDirEntries fs eng scriptDir input_path output_path P rest

/-- `process_files`: directory inputs loop over `iterdir`; otherwise the
output path is used verbatim when it has a `.las`/`.laz` suffix, a derived
name inside it when it is an existing directory, and a `ValueError` is
raised otherwise. -/
def process_files (fs : FileSystem) (eng : Engine) (scriptDir : String)
    (input_path output_path : PPath) (P : WmsParams) : List EngineEvent × Option PCCError :=
  if fs.isDir input_path then
    runDirEntries fs eng scriptDir input_path output_path P (fs.entries input_path)
  else
    if pySuffix (PPath.name output_path) = ".las" ∨ pySuffix (PPath.name output_path) = ".laz" then
      run_pdal eng scriptDir input_path output_path P
    else if fs.isDir output_path then
      run_pdal eng scriptDir input_path (output_path ++ [colorName (PPath.name input_path)]) P
    else
      ([], some (PCCError.invalidArgument
        "Specified output path not a LAS/LAZ file or existing directory."))

/-! ### task view of the orchestrator -/

/-- The (input file, output file) pairs handed to `run_pdal` in
directory-input mode, in listing order. -/
def taskList (fs : FileSystem) (input_path output_path : PPath) : List (PPath × PPath) :=
  (fs.entries input_path).filterMap fun name =>
    if pySuffix name = ".las" ∨ pySuffix name = ".laz" then
      some (input_path ++ [name], output_path ++ [colorName name])
    else none

/-- All file tasks the orchestrator produces (the pairs `process_files`
hands to `run_pdal`), both for directory and for single-file inputs; empty
when the run raises `InvalidArgument` before any task. -/
def orchestratorTasks (fs : FileSystem) (input_path output_path : PPath) : List (PPath × PPath) :=
  if fs.isDir input_path then
    if fs.isDir output_path then taskList fs input_path output_path else []
  else
    if pySuffix (PPath.name output_path) = ".las" ∨ pySuffix (PPath.name output_path) = ".laz" then
      [(input_path, output_path)]
    else if fs.isDir output_path then
      [(input_path, output_path ++ [colorName (PPath.name input_path)])]
    else []

/-- Sequential execution of a task list, aborting at the first failure. -/
def runTasks (eng : Engine) (scriptDir : String) (P : WmsParams) :
    List (PPath × PPath) → List EngineEvent × Option PCCError
  | [] => ([], none)
  | t :: ts =>
    let r := run_pdal eng scriptDir t.1 t.2 P
    match r.2 with
    | some e => (r.1, some e)
    | none =>
      let rr := runTasks eng scriptDir P ts
      (r.1 ++ rr.1, rr.2)

/-! ### a JSON parser

Used to state what "the pipeline description is valid JSON", "contains
exactly three stages" and "the bundle, unescaped and parsed back as JSON,
round-trips" mean.  Standard recursive descent (RFC 8259 grammar); number
tokens are kept verbatim, so parsing is exact on numerals. -/

/-- JSON values; number tokens are kept as their source numerals. -/
inductive JVal where
  | jstr (s : String)
  | jnum (lit : String)
  | jbool (b : Bool)
  | jnull
  | jobj (fields : List (String × JVal))
  | jarr (elems : List JVal)

/-- JSON insignificant whitespace. -/
def isWsChar (c : Char) : Bool := c = ' ' || c = '\n' || c = '\t' || c = '\r'

def skipWs (l : List Char) : List Char := l.dropWhile isWsChar

def hexVal? (c : Char) : Option Nat :=
  if '0' ≤ c ∧ c ≤ '9' then some (c.toNat - 48)
  else if 'a' ≤ c ∧ c ≤ 'f' then some (c.toNat - 87)
  else if 'A' ≤ c ∧ c ≤ 'F' then some (c.toNat - 55)
  else none

/-- The single-character string escapes of JSON. -/
def escChar? (e : Char) : Option Char :=
  if e = '\x22' then some '\x22'
  else if e = '\\' then some '\\'
  else if e = '/' then some '/'
  else if e = 'b' then some '\x08'
  else if e = 'f' then some '\x0c'
  else if e = 'n' then some '\n'
  else if e = 'r' then some '\r'
  else if e = 't' then some '\t'
  else none

/-- Parse the body of a string literal after the opening quote: returns the
unescaped content and the input after the closing quote. -/
def parseStrBody : List Char → Option (List Char × List Char)
  | [] => none
  | c :: rest =>
    if c = '\x22' then some ([], rest)
    else if c = '\\' then
      match rest with
      | [] => none
      | e :: rest2 =>
        if e = 'u' then
          match rest2 with
          | h1 :: h2 :: h3 :: h4 :: rest3 =>
            match hexVal? h1, hexVal? h2, hexVal? h3, hexVal? h4 with
            | some a, some b, some c2, some d =>
              (parseStrBody rest3).map fun sr =>
                (Char.ofNat (a * 4096 + b * 256 + c2 * 16 + d) :: sr.1, sr.2)
            | _, _, _, _ => none
          | _ => none
        else
          match escChar? e with
          | some d => (parseStrBody rest2).map fun sr => (d :: sr.1, sr.2)
          | none => none
    else if c.toNat < 0x20 then none
    else (parseStrBody rest).map fun sr => (c :: sr.1, sr.2)

/-- Characters a JSON number token may consist of. -/
def numChar (c : Char) : Bool :=
  ('0' ≤ c && c ≤ '9') || c = '-' || c = '+' || c = '.' || c = 'e' || c = 'E'

def isDigitC (c : Char) : Bool := '0' ≤ c && c ≤ '9'

/-- Consume one or more digits. -/
def chompDigits (l : List Char) : Option (List Char) :=
  if (l.takeWhile isDigitC).isEmpty then none else some (l.dropWhile isDigitC)

/-- The integer part of a JSON number: `0`, or a nonzero digit then digits. -/
def checkInt : List Char → Option (List Char)
  | [] => none
  | c :: rest =>
    if c = '0' then some rest
    else if isDigitC c then some (rest.dropWhile isDigitC)
    else none

/-- The optional fraction part. -/
def checkFrac : List Char → Option (List Char)
  | [] => some []
  | c :: rest => if c = '.' then chompDigits rest else some (c :: rest)

/-- The optional exponent part. -/
def checkExp : List Char → Option (List Char)
  | [] => some []
  | c :: rest =>
    if c = 'e' || c = 'E' then
      match rest with
      | [] => none
      | s :: rest2 => if s = '-' || s = '+' then chompDigits rest2 else chompDigits rest
    else some (c :: rest)

/-- Whether a token is a well-formed JSON number. -/
def checkNum (l : List Char) : Bool :=
  let l1 := match l with
    | '-' :: rest => rest
    | _ => l
  match checkInt l1 with
  | none => false
  | some l2 =>
    match checkFrac l2 with
    | none => false
    | some l3 =>
      match checkExp l3 with
      | none => false
      | some l4 => l4.isEmpty

mutual

/-- Parse one JSON value (after skipping whitespace); `fuel` bounds the
recursion depth and loop count. -/
def parseJson : Nat → List Char → Option (JVal × List Char)
  | 0, _ => none
  | fuel + 1, l =>
    match skipWs l with
    | [] => none
    | c :: rest =>
      if c = '\x22' then (parseStrBody rest).map fun sr => (JVal.jstr (String.mk sr.1), sr.2)
      else if c = '\x7b' then parseObjRest fuel rest
      else if c = '[' then parseArrRest fuel rest
      else if c = 't' then
        match rest with
        | 'r' :: 'u' :: 'e' :: r => some (JVal.jbool true, r)
        | _ => none
      else if c = 'f' then
        match rest with
        | 'a' :: 'l' :: 's' :: 'e' :: r => some (JVal.jbool false, r)
        | _ => none
      else if c = 'n' then
        match rest with
        | 'u' :: 'l' :: 'l' :: r => some (JVal.jnull, r)
        | _ => none
      else
        let tok := (c :: rest).takeWhile numChar
        if checkNum tok then some (JVal.jnum (String.mk tok), (c :: rest).dropWhile numChar)
        else none

/-- After an opening brace: an empty object, or its members. -/
def parseObjRest : Nat → List Char → Option (JVal × List Char)
  | 0, _ => none
  | fuel + 1, l =>
    match skipWs l with
    | [] => none
    | c :: rest => if c = '\x7d' then some (JVal.jobj [], rest) else parseMembers fuel l []

/-- One or more `key : value` members, comma-separated, up to the closing
brace. -/
def parseMembers : Nat → List Char → List (String × JVal) → Option (JVal × List Char)
  | 0, _, _ => none
  | fuel + 1, l, acc =>
    match skipWs l with
    | [] => none
    | c0 :: rest0 =>
      if c0 = '\x22' then
        match parseStrBody rest0 with
        | none => none
        | some (key, r1) =>
          match skipWs r1 with
          | [] => none
          | c1 :: r2 =>
            if c1 = ':' then
              match parseJson fuel r2 with
              | none => none
              | some (v, r3) =>
                match skipWs r3 with
                | [] => none
                | c2 :: r4 =>
                  if c2 = ',' then parseMembers fuel r4 (acc ++ [(String.mk key, v)])
                  else if c2 = '\x7d' then
                    some (JVal.jobj (acc ++ [(String.mk key, v)]), r4)
                  else none
            else none
      else none

/-- After an opening bracket: an empty array, or its elements. -/
def parseArrRest : Nat → List Char → Option (JVal × List Char)
  | 0, _ => none
  | fuel + 1, l =>
    match skipWs l with
    | [] => none
    | c :: rest => if c = ']' then some (JVal.jarr [], rest) else parseElems fuel l []

/-- One or more elements, comma-separated, up to the closing bracket. -/
def parseElems : Nat → List Char → List JVal → Option (JVal × List Char)
  | 0, _, _ => none
  | fuel + 1, l, acc =>
    match parseJson fuel l with
    | none => none
    | some (v, r1) =>
      match skipWs r1 with
      | [] => none
      | c :: r2 =>
        if c = ',' then parseElems fuel r2 (acc ++ [v])
        else if c = ']' then some (JVal.jarr (acc ++ [v]), r2)
        else none

end

/-- Parse a whole document: one value, then only whitespace.  The fuel
`2 * length + 2` exceeds the recursion depth and loop count any document of
that length can demand. -/
def parseTop (s : String) : Option JVal :=
  match parseJson (2 * s.data.length + 2) s.data with
  | some (v, rest) => if skipWs rest = [] then some v else none
  | none => none

/-! ### path lemmas -/

theorem lastIdxOf_append (c : Char) (xs ys : List Char) :
    lastIdxOf c (xs ++ ys) =
      (lastIdxOf c ys).elim (lastIdxOf c xs) (fun j => some (xs.length + j)) := by
  induction xs with
  | nil => cases h : lastIdxOf c ys <;> simp [h, lastIdxOf]
  | cons a xs ih =>
    have hstep : ∀ l, lastIdxOf c (a :: l) =
        match lastIdxOf c l with
        | some i => some (i + 1)
        | none => if a = c then some 0 else none := fun _ => rfl
    rw [List.cons_append, hstep, hstep, ih]
    cases h : lastIdxOf c ys with
    | none => rfl
    | some j =>
      show some (xs.length + j + 1) = some ((a :: xs).length + j)
      exact congrArg some (by simp only [List.length_cons]; omega)

theorem pySuffix_mk_append (w : String) (t : List Char) (j : Nat)
    (hj : lastIdxOf '.' t = some j) (h0 : 0 < j) (h1 : j + 1 < t.length) :
    pySuffix (String.mk (w.data ++ t)) = String.mk (t.drop j) := by
  have hd : (String.mk (w.data ++ t)).data = w.data ++ t := rfl
  unfold pySuffix
  rw [hd, lastIdxOf_append, hj]
  simp only [Option.elim]
  rw [if_pos]
  · congr 1
    exact List.drop_append j
  · refine ⟨by omega, ?_⟩
    simp only [List.length_append]
    omega

theorem pyStem_append_pySuffix (n : String) : pyStem n ++ pySuffix n = n := by
  unfold pyStem pySuffix
  cases h : lastIdxOf '.' n.data with
  | none =>
    apply String.ext
    simp [String.data_append]
  | some i =>
    by_cases hc : 0 < i ∧ i + 1 < n.data.length
    · simp only [hc, if_pos]
      apply String.ext
      simp [String.data_append, List.take_append_drop]
    · simp only [hc, if_neg, if_false]
      apply String.ext
      simp [String.data_append]

theorem colorName_length (n : String) : (colorName n).length = n.length + 6 := by
  have h : (pyStem n).length + (pySuffix n).length = n.length := by
    rw [← String.length_append, pyStem_append_pySuffix]
  simp only [colorName, String.length_append]
  have h6 : ("_color" : String).length = 6 := rfl
  omega

theorem colorName_ne (n : String) : colorName n ≠ n := by
  intro h
  have := colorName_length n
  rw [h] at this
  omega

theorem pySuffix_colorName_las {n : String} (h : pySuffix n = ".las") :
    pySuffix (colorName n) = ".las" := by
  have hs : colorName n = String.mk ((pyStem n).data ++ "_color.las".data) := by
    apply String.ext
    rw [colorName, h, String.data_append, String.data_append, List.append_assoc]
    congr 1
  rw [hs, pySuffix_mk_append _ _ 6 (by decide) (by decide) (by decide)]
  rfl

theorem pySuffix_colorName_laz {n : String} (h : pySuffix n = ".laz") :
    pySuffix (colorName n) = ".laz" := by
  have hs : colorName n = String.mk ((pyStem n).data ++ "_color.laz".data) := by
    apply String.ext
    rw [colorName, h, String.data_append, String.data_append, List.append_assoc]
    congr 1
  rw [hs, pySuffix_mk_append _ _ 6 (by decide) (by decide) (by decide)]
  rfl

theorem PPath_name_append_singleton (p : PPath) (a : String) :
    PPath.name (p ++ [a]) = a := by
  simp [PPath.name]

theorem append_singleton_ne {p q : PPath} {a b : String} (h : a ≠ b) :
    p ++ [a] ≠ q ++ [b] := by
  intro he
  have hl : (p ++ [a]).getLast? = (q ++ [b]).getLast? := by rw [he]
  simp at hl
  exact h hl

/-! ### run-structure lemmas -/

theorem run_pdal_shape (eng : Engine) (sd : String) (i o : PPath) (P : WmsParams) :
    (run_pdal eng sd i o P).1.head? = some (EngineEvent.validate (pipelineJsonOf sd i o P)) ∧
    ((run_pdal eng sd i o P).2 = none ∨
      ∃ m, (run_pdal eng sd i o P).2 = some (PCCError.engineError m)) := by
  unfold run_pdal
  cases hv : eng.validateRes (pipelineJsonOf sd i o P) with
  | some m => simp [hv]
  | none => cases he : eng.executeRes (pipelineJsonOf sd i o P) <;> simp [hv, he]

theorem runDirEntries_not_dir (fs : FileSystem) (eng : Engine) (sd : String)
    (i o : PPath) (P : WmsParams) (hout : fs.isDir o = false) (es : List String) :
    runDirEntries fs eng sd i o P es =
      ([], if es.any (fun n => decide (pySuffix n = ".las" ∨ pySuffix n = ".laz")) then
        some (PCCError.invalidArgument
          "Output path should be a directory if the input path is a directory.")
      else none) := by
  induction es with
  | nil => rfl
  | cons name rest ih =>
    by_cases hm : pySuffix name = ".las" ∨ pySuffix name = ".laz"
    · simp [runDirEntries, hm, hout]
    · simp [runDirEntries, hm, ih]

theorem runDirEntries_eq_runTasks (fs : FileSystem) (eng : Engine) (sd : String)
    (i o : PPath) (P : WmsParams) (hout : fs.isDir o = true) (es : List String) :
    runDirEntries fs eng sd i o P es =
      runTasks eng sd P (es.filterMap fun name =>
        if pySuffix name = ".las" ∨ pySuffix name = ".laz" then
          some (i ++ [name], o ++ [colorName name]) else none) := by
  induction es with
  | nil => rfl
  | cons name rest ih =>
    by_cases hm : pySuffix name = ".las" ∨ pySuffix name = ".laz"
    · simp only [runDirEntries, hout, if_pos hm, List.filterMap_cons, if_true, runTasks]
      cases h : (run_pdal eng sd (i ++ [name]) (o ++ [colorName name]) P).2 <;>
        simp [h, ih]
    · simp only [runDirEntries, if_neg hm, List.filterMap_cons, ih]

theorem process_files_dir (fs : FileSystem) (eng : Engine) (sd : String)
    (i o : PPath) (P : WmsParams) (hin : fs.isDir i = true) (hout : fs.isDir o = true) :
    process_files fs eng sd i o P = runTasks eng sd P (taskList fs i o) := by
  simp only [process_files, hin, if_true, taskList]
  exact runDirEntries_eq_runTasks fs eng sd i o P hout (fs.entries i)

theorem runTasks_stops_at_failure (eng : Engine) (sd : String) (P : WmsParams)
    (ts : List (PPath × PPath)) (K : Nat) (hK : K < ts.length)
    (hfail : ((run_pdal eng sd (ts.get ⟨K, hK⟩).1 (ts.get ⟨K, hK⟩).2 P).2).isSome = true)
    (hok : ∀ i (hi : i < K),
      (run_pdal eng sd (ts.get ⟨i, by omega⟩).1 (ts.get ⟨i, by omega⟩).2 P).2 = none) :
    runTasks eng sd P ts =
      ((ts.take (K + 1)).flatMap (fun t => (run_pdal eng sd t.1 t.2 P).1),
        (run_pdal eng sd (ts.get ⟨K, hK⟩).1 (ts.get ⟨K, hK⟩).2 P).2) := by
  induction ts generalizing K with
  | nil => exact absurd hK (by simp)
  | cons t ts ih =>
    cases K with
    | zero =>
      obtain ⟨e, he⟩ := Option.isSome_iff_exists.mp hfail
      simp only [List.get] at he ⊢
      simp [runTasks, he]
    | succ K =>
      have h0 := hok 0 (by omega)
      simp only [List.get] at h0 hfail ⊢
      have hK' : K < ts.length := by simpa using hK
      have ihh := ih K hK' hfail (fun i hi => hok (i + 1) (by omega))
      simp [runTasks, h0, ihh]

/-! ### concrete fixtures for witnesses and counterexamples -/

/-- An engine whose validate and execute steps always succeed. -/
def engOk : Engine := ⟨fun _ => none, fun _ => none⟩

/-- An engine whose validate step always fails. -/
def engFailV : Engine := ⟨fun _ => some "bad pipeline", fun _ => none⟩

/-- Small concrete parameter bundle. -/
def Pc : WmsParams := ⟨"EPSG:28992", "u", "L", "E", "1.3.0", "image/png", "0.25", "1000"⟩

/-- A filesystem with no directories at all. -/
def fsNone : FileSystem := ⟨fun _ => false, fun _ => []⟩

/-- A filesystem where only `o` is a directory (and it is empty). -/
def fsDirO : FileSystem := ⟨fun p => p == ["o"], fun _ => []⟩

/-- A filesystem where only the directory `d.las` exists. -/
def fsDlas : FileSystem := ⟨fun p => p == ["d.las"], fun _ => []⟩

/-- A filesystem with directory `in` holding only a non-LAS entry. -/
def fsTxtOnly : FileSystem :=
  ⟨fun p => p == ["in"], fun p => if p == ["in"] then ["readme.txt"] else []⟩

/-- A filesystem with directories `in` (three entries, two LAS/LAZ) and `out`. -/
def fsInOut : FileSystem :=
  ⟨fun p => p == ["in"] || p == ["out"],
   fun p => if p == ["in"] then ["a.las", "b.txt", "c.laz"] else []⟩

/-! ### claims C1, C2, C4, C6, C7, C8, C9, C10 -/

/-- C1 counterexample: the claim "every task's output path ends in
`.las`/`.laz` and never equals the input path" fails on the code at two
concrete runs: a single-file run with output `a.las` equal to the input
(verbatim branch), and a single-file run `a.txt` into an existing directory
`o`, whose derived output `o/a_color.txt` carries the input's `.txt`
extension. -/
theorem C1_counterexample :
    (∃ t ∈ orchestratorTasks fsNone ["a.las"] ["a.las"], t.2 = t.1) ∧
    (∃ t ∈ orchestratorTasks fsDirO ["a.txt"] ["o"],
      PPath.suffix t.2 ≠ ".las" ∧ PPath.suffix t.2 ≠ ".laz") := by
  decide

/-- C1 (amended): tasks produced in directory-input mode have an output
path ending in `.las`/`.laz` and distinct from the input path; single-file
verbatim tasks have an output ending in `.las`/`.laz` (which may equal the
input path); single-file-into-directory tasks have an output distinct from
the input path (but carrying the input's own extension). -/
theorem C1_task_invariants (fs : FileSystem) (i o : PPath) :
    (fs.isDir i = true →
      ∀ t ∈ orchestratorTasks fs i o,
        (PPath.suffix t.2 = ".las" ∨ PPath.suffix t.2 = ".laz") ∧ t.2 ≠ t.1) ∧
    (fs.isDir i = false →
      (pySuffix (PPath.name o) = ".las" ∨ pySuffix (PPath.name o) = ".laz") →
      ∀ t ∈ orchestratorTasks fs i o,
        PPath.suffix t.2 = ".las" ∨ PPath.suffix t.2 = ".laz") ∧
    (fs.isDir i = false →
      ¬(pySuffix (PPath.name o) = ".las" ∨ pySuffix (PPath.name o) = ".laz") →
      ∀ t ∈ orchestratorTasks fs i o, t.2 ≠ t.1) := by
  refine ⟨fun hin t ht => ?_, fun hin hsuf t ht => ?_, fun hin hsuf t ht => ?_⟩
  · simp only [orchestratorTasks, hin, if_true] at ht
    by_cases hout : fs.isDir o = true
    · simp only [hout, if_true, taskList, List.mem_filterMap] at ht
      obtain ⟨name, hmem, heq⟩ := ht
      by_cases hm : pySuffix name = ".las" ∨ pySuffix name = ".laz"
      · rw [if_pos hm] at heq
        obtain rfl := Option.some.inj heq
        refine ⟨?_, ?_⟩
        · have hn : PPath.suffix (o ++ [colorName name]) = pySuffix (colorName name) := by
            simp [PPath.suffix, PPath_name_append_singleton]
          rcases hm with h | h
          · exact Or.inl (by rw [hn, pySuffix_colorName_las h])
          · exact Or.inr (by rw [hn, pySuffix_colorName_laz h])
        · exact append_singleton_ne (colorName_ne name)
      · rw [if_neg hm] at heq
        exact absurd heq (by simp)
    · simp only [Bool.not_eq_true] at hout
      simp [hout] at ht
  · simp only [orchestratorTasks, hin, Bool.false_eq_true, if_false, if_pos hsuf,
      List.mem_singleton] at ht
    subst ht
    exact hsuf
  · simp only [orchestratorTasks, hin, Bool.false_eq_true, if_false, if_neg hsuf] at ht
    by_cases hout : fs.isDir o = true
    · simp only [hout, if_true, List.mem_singleton] at ht
      subst ht
      intro he
      have he' : o ++ [colorName (PPath.name i)] = i := he
      have hname := PPath_name_append_singleton o (colorName (PPath.name i))
      rw [he'] at hname
      exact colorName_ne (PPath.name i) hname.symm
    · simp only [Bool.not_eq_true] at hout
      simp [hout] at ht

/-- C1 witness: the amended claim applied to the concrete run of `a.laz`
with verbatim output into the directory name `d.las`. -/
theorem C1_task_invariants_witness :
    ∀ t ∈ orchestratorTasks fsDlas ["a.laz"] ["d.las"],
      PPath.suffix t.2 = ".las" ∨ PPath.suffix t.2 = ".laz" :=
  (C1_task_invariants fsDlas ["a.laz"] ["d.las"]).2.1 (by decide) (by decide)

/-- C2 counterexample: a directory input whose listing has no `.las`/`.laz`
entry, with a non-directory output, raises nothing at all — the
`ValueError` check sits inside the per-matching-file loop, so the claimed
"always raises `InvalidArgument`" fails. -/
theorem C2_counterexample :
    fsTxtOnly.isDir ["in"] = true ∧ fsTxtOnly.isDir ["out"] = false ∧
    process_files fsTxtOnly engOk "sd" ["in"] ["out"] Pc = ([], none) := by
  decide

/-- C2 (amended): for a directory input with a non-directory output no
engine invocation ever happens, and `InvalidArgument` is raised iff the
directory holds at least one `.las`/`.laz` entry. -/
theorem C2_dir_output_not_dir (fs : FileSystem) (eng : Engine) (sd : String)
    (i o : PPath) (P : WmsParams)
    (hin : fs.isDir i = true) (hout : fs.isDir o = false) :
    (process_files fs eng sd i o P).1 = [] ∧
    ((process_files fs eng sd i o P).2 =
      some (PCCError.invalidArgument
        "Output path should be a directory if the input path is a directory.") ↔
      ∃ n ∈ fs.entries i, pySuffix n = ".las" ∨ pySuffix n = ".laz") := by
  have h := runDirEntries_not_dir fs eng sd i o P hout (fs.entries i)
  simp only [process_files, hin, if_true, h]
  refine ⟨by simp, ?_⟩
  by_cases ha : ∃ n ∈ fs.entries i, pySuffix n = ".las" ∨ pySuffix n = ".laz"
  · simp [List.any_eq_true, ha]
  · simp [List.any_eq_true, ha]

/-- C2 witness: the amended claim at a concrete directory with one LAS
entry and a non-directory output. -/
theorem C2_dir_output_not_dir_witness :
    (process_files fsInOut engOk "sd" ["in"] ["nope"] Pc).1 = [] ∧
    ((process_files fsInOut engOk "sd" ["in"] ["nope"] Pc).2 =
      some (PCCError.invalidArgument
        "Output path should be a directory if the input path is a directory.") ↔
      ∃ n ∈ fsInOut.entries ["in"], pySuffix n = ".las" ∨ pySuffix n = ".laz") :=
  C2_dir_output_not_dir fsInOut engOk "sd" ["in"] ["nope"] Pc (by decide) (by decide)

/-- C4: in a directory run, if the engine fails (validation or execution)
on task `K`, the run's trace is exactly the events of tasks `0..K` and the
failure propagates as the run's error — tasks `K+1..N` are never
attempted. -/
theorem C4_failure_aborts_rest (fs : FileSystem) (eng : Engine) (sd : String)
    (i o : PPath) (P : WmsParams) (K : Nat)
    (hin : fs.isDir i = true) (hout : fs.isDir o = true)
    (hK : K < (taskList fs i o).length)
    (hfail : ((run_pdal eng sd ((taskList fs i o).get ⟨K, hK⟩).1
      ((taskList fs i o).get ⟨K, hK⟩).2 P).2).isSome = true)
    (hok : ∀ j (hj : j < K), (run_pdal eng sd ((taskList fs i o).get ⟨j, by omega⟩).1
      ((taskList fs i o).get ⟨j, by omega⟩).2 P).2 = none) :
    process_files fs eng sd i o P =
      (((taskList fs i o).take (K + 1)).flatMap (fun t => (run_pdal eng sd t.1 t.2 P).1),
        (run_pdal eng sd ((taskList fs i o).get ⟨K, hK⟩).1
          ((taskList fs i o).get ⟨K, hK⟩).2 P).2) := by
  rw [process_files_dir fs eng sd i o P hin hout]
  exact runTasks_stops_at_failure eng sd P _ K hK hfail hok

/-- C4 witness: with an always-failing validate step, a two-task directory
run stops after the first task's validate event. -/
theorem C4_failure_aborts_rest_witness :
    process_files fsInOut engFailV "sd" ["in"] ["out"] Pc =
      (((taskList fsInOut ["in"] ["out"]).take 1).flatMap
          (fun t => (run_pdal engFailV "sd" t.1 t.2 Pc).1),
        (run_pdal engFailV "sd" ((taskList fsInOut ["in"] ["out"]).get ⟨0, by decide⟩).1
          ((taskList fsInOut ["in"] ["out"]).get ⟨0, by decide⟩).2 Pc).2) :=
  C4_failure_aborts_rest fsInOut engFailV "sd" ["in"] ["out"] Pc 0
    (by decide) (by decide) (by decide) (by decide)
    (fun j hj => absurd hj (by omega))

/-- C6: in directory-input mode (with a directory output), the number of
tasks equals the number of directory entries whose `pathlib` suffix is
exactly `.las` or `.laz`; all other entries contribute nothing. -/
theorem C6_task_count (fs : FileSystem) (i o : PPath)
    (hin : fs.isDir i = true) (hout : fs.isDir o = true) :
    (orchestratorTasks fs i o).length =
      (fs.entries i).countP (fun n => decide (pySuffix n = ".las" ∨ pySuffix n = ".laz")) := by
  simp only [orchestratorTasks, hin, hout, if_true, taskList]
  induction fs.entries i with
  | nil => rfl
  | cons n rest ih =>
    by_cases h : pySuffix n = ".las" ∨ pySuffix n = ".laz" <;>
      simp [List.countP_cons, h, ih]

/-- C6 witness: three entries, of which two match, give two tasks. -/
theorem C6_task_count_witness :
    (orchestratorTasks fsInOut ["in"] ["out"]).length =
      (fsInOut.entries ["in"]).countP
        (fun n => decide (pySuffix n = ".las" ∨ pySuffix n = ".laz")) :=
  C6_task_count fsInOut ["in"] ["out"] (by decide) (by decide)

/-- C7: a single-file input whose output path has a `.las`/`.laz` suffix
yields exactly one task using the output path verbatim, and the engine is
invoked on precisely that pair. -/
theorem C7_verbatim_output (fs : FileSystem) (eng : Engine) (sd : String)
    (i o : PPath) (P : WmsParams)
    (hin : fs.isDir i = false)
    (hsuf : pySuffix (PPath.name o) = ".las" ∨ pySuffix (PPath.name o) = ".laz") :
    orchestratorTasks fs i o = [(i, o)] ∧
    process_files fs eng sd i o P = run_pdal eng sd i o P := by
  constructor
  · simp [orchestratorTasks, hin, hsuf]
  · simp [process_files, hin, hsuf]

/-- C7 witness: input `a.laz`, output `b.las` runs on `b.las` verbatim. -/
theorem C7_verbatim_output_witness :
    orchestratorTasks fsNone ["a.laz"] ["b.las"] = [(["a.laz"], ["b.las"])] ∧
    process_files fsNone engOk "sd" ["a.laz"] ["b.las"] Pc =
      run_pdal engOk "sd" ["a.laz"] ["b.las"] Pc :=
  C7_verbatim_output fsNone engOk "sd" ["a.laz"] ["b.las"] Pc (by decide) (by decide)

/-- C8 counterexample: a single-file input whose output path is an existing
directory named `d.las` takes the verbatim branch (the suffix test fires
first), so the task's output is the directory path itself, not the derived
`<stem>_color<ext>` name the claim requires for every
single-file-into-existing-directory run. -/
theorem C8_counterexample :
    fsDlas.isDir ["d.las"] = true ∧ fsDlas.isDir ["a.laz"] = false ∧
    orchestratorTasks fsDlas ["a.laz"] ["d.las"] = [(["a.laz"], ["d.las"])] ∧
    PPath.name ["d.las"] ≠
      pyStem (PPath.name ["a.laz"]) ++ "_color" ++ pySuffix (PPath.name ["a.laz"]) := by
  decide

/-- C8 (amended): whenever the output name is derived — every
directory-mode task, and a single-file input whose output path is an
existing directory and does not itself have a `.las`/`.laz` extension —
the output file name is `<stem>_color<ext>` inside the output directory. -/
theorem C8_derived_names (fs : FileSystem) (eng : Engine) (sd : String)
    (i o : PPath) (P : WmsParams) :
    (∀ t ∈ taskList fs i o, ∃ name ∈ fs.entries i,
      (pySuffix name = ".las" ∨ pySuffix name = ".laz") ∧
      t = (i ++ [name], o ++ [pyStem name ++ "_color" ++ pySuffix name])) ∧
    (fs.isDir i = false →
      ¬(pySuffix (PPath.name o) = ".las" ∨ pySuffix (PPath.name o) = ".laz") →
      fs.isDir o = true →
      process_files fs eng sd i o P =
        run_pdal eng sd i
          (o ++ [pyStem (PPath.name i) ++ "_color" ++ pySuffix (PPath.name i)]) P) := by
  constructor
  · intro t ht
    simp only [taskList, List.mem_filterMap] at ht
    obtain ⟨name, hmem, heq⟩ := ht
    by_cases hm : pySuffix name = ".las" ∨ pySuffix name = ".laz"
    · rw [if_pos hm] at heq
      obtain rfl := Option.some.inj heq
      exact ⟨name, hmem, hm, rfl⟩
    · rw [if_neg hm] at heq
      exact absurd heq (by simp)
  · intro hin hsuf hout
    simp [process_files, hin, hsuf, hout, colorName]

/-- C8 witness: `scan.laz` into the existing directory `o` is written to
`o/scan_color.laz`. -/
theorem C8_derived_names_witness :
    process_files fsDirO engOk "sd" ["scan.laz"] ["o"] Pc =
      run_pdal engOk "sd" ["scan.laz"]
        (["o"] ++ [pyStem (PPath.name ["scan.laz"]) ++ "_color" ++
          pySuffix (PPath.name ["scan.laz"])]) Pc :=
  (C8_derived_names fsDirO engOk "sd" ["scan.laz"] ["o"] Pc).2
    (by decide) (by decide) (by decide)

/-- C9: a single-file input whose output path neither has a `.las`/`.laz`
suffix nor is an existing directory raises `InvalidArgument` with an empty
engine trace (no engine invocation). -/
theorem C9_invalid_output (fs : FileSystem) (eng : Engine) (sd : String)
    (i o : PPath) (P : WmsParams)
    (hin : fs.isDir i = false)
    (hsuf : ¬(pySuffix (PPath.name o) = ".las" ∨ pySuffix (PPath.name o) = ".laz"))
    (hout : fs.isDir o = false) :
    process_files fs eng sd i o P =
      ([], some (PCCError.invalidArgument
        "Specified output path not a LAS/LAZ file or existing directory.")) := by
  simp [process_files, hin, hsuf, hout]

/-- C9 witness: input `a.las`, output `b.txt` (no directory) raises. -/
theorem C9_invalid_output_witness :
    process_files fsNone engOk "sd" ["a.las"] ["b.txt"] Pc =
      ([], some (PCCError.invalidArgument
        "Specified output path not a LAS/LAZ file or existing directory.")) :=
  C9_invalid_output fsNone engOk "sd" ["a.las"] ["b.txt"] Pc
    (by decide) (by decide) (by decide)

/-- C10: any input path that is not an existing directory (the model has no
file-existence query at all, because the code makes none, so this includes
paths that do not exist) is treated as a single-file input: when the output
is a LAS/LAZ name or an existing directory, the run goes straight to the
engine (first event is its validate call) and can only fail with an engine
error, never `InvalidArgument`. -/
theorem C10_no_input_existence_check (fs : FileSystem) (eng : Engine) (sd : String)
    (i o : PPath) (P : WmsParams)
    (hin : fs.isDir i = false)
    (hgo : (pySuffix (PPath.name o) = ".las" ∨ pySuffix (PPath.name o) = ".laz") ∨
      fs.isDir o = true) :
    ∃ out, process_files fs eng sd i o P = run_pdal eng sd i out P ∧
      (process_files fs eng sd i o P).1.head? =
        some (EngineEvent.validate (pipelineJsonOf sd i out P)) ∧
      ((process_files fs eng sd i o P).2 = none ∨
        ∃ m, (process_files fs eng sd i o P).2 = some (PCCError.engineError m)) := by
  by_cases hsuf : pySuffix (PPath.name o) = ".las" ∨ pySuffix (PPath.name o) = ".laz"
  · have hpf : process_files fs eng sd i o P = run_pdal eng sd i o P := by
      simp [process_files, hin, hsuf]
    refine ⟨o, hpf, ?_, ?_⟩
    · rw [hpf]; exact (run_pdal_shape eng sd i o P).1
    · rw [hpf]; exact (run_pdal_shape eng sd i o P).2
  · have hout : fs.isDir o = true := hgo.resolve_left hsuf
    have hpf : process_files fs eng sd i o P =
        run_pdal eng sd i (o ++ [colorName (PPath.name i)]) P := by
      simp [process_files, hin, hsuf, hout]
    refine ⟨o ++ [colorName (PPath.name i)], hpf, ?_, ?_⟩
    · rw [hpf]; exact (run_pdal_shape eng sd i (o ++ [colorName (PPath.name i)]) P).1
    · rw [hpf]; exact (run_pdal_shape eng sd i (o ++ [colorName (PPath.name i)]) P).2

/-- C10 witness: the nonexistent input `ghost.las` with output `b.las`
still reaches the engine. -/
theorem C10_no_input_existence_check_witness :
    ∃ out, process_files fsNone engOk "sd" ["ghost.las"] ["b.las"] Pc =
        run_pdal engOk "sd" ["ghost.las"] out Pc ∧
      (process_files fsNone engOk "sd" ["ghost.las"] ["b.las"] Pc).1.head? =
        some (EngineEvent.validate (pipelineJsonOf "sd" ["ghost.las"] out Pc)) ∧
      ((process_files fsNone engOk "sd" ["ghost.las"] ["b.las"] Pc).2 = none ∨
        ∃ m, (process_files fsNone engOk "sd" ["ghost.las"] ["b.las"] Pc).2 =
          some (PCCError.engineError m)) :=
  C10_no_input_existence_check fsNone engOk "sd" ["ghost.las"] ["b.las"] Pc
    (by decide) (Or.inl (by decide))

/-! ### safety predicates and character lemmas -/

/-- Printable ASCII, not a quote, not a backslash: such characters pass
through both `json.dumps` escaping and the quote-escaping untouched. -/
def safeChar (c : Char) : Bool :=
  decide (0x20 ≤ c.toNat) && decide (c.toNat ≤ 0x7e) && decide (c ≠ '\x22') && decide (c ≠ '\\')

def safeStr (s : String) : Bool := s.data.all safeChar

/-- Printable ASCII and not a backslash (quotes allowed). -/
def escSafeChar (c : Char) : Bool :=
  decide (0x20 ≤ c.toNat) && decide (c.toNat ≤ 0x7e) && decide (c ≠ '\\')

def escSafeStr (s : String) : Bool := s.data.all escSafeChar

/-- A nonempty well-formed JSON numeral made of number characters. -/
def goodNum (s : String) : Bool :=
  !s.data.isEmpty && s.data.all numChar && checkNum s.data

/-- A string of JSON whitespace only. -/
def wsOnly (s : String) : Bool := s.data.all isWsChar

theorem safeChar_spec {c : Char} (h : safeChar c = true) :
    c ≠ '\x22' ∧ c ≠ '\\' ∧ ¬(c.toNat < 0x20) ∧ c.toNat < 0x7f := by
  simp only [safeChar, Bool.and_eq_true, decide_eq_true_eq] at h
  exact ⟨h.1.2, h.2, by omega, by omega⟩

theorem escSafeChar_spec {c : Char} (h : escSafeChar c = true) :
    c ≠ '\\' ∧ ¬(c.toNat < 0x20) ∧ c.toNat < 0x7f := by
  simp only [escSafeChar, Bool.and_eq_true, decide_eq_true_eq] at h
  exact ⟨h.2, by omega, by omega⟩

theorem pyEscChar_safe {c : Char} (h : safeChar c = true) : pyEscChar c = [c] := by
  simp only [safeChar, Bool.and_eq_true, decide_eq_true_eq] at h
  obtain ⟨⟨⟨h1, h2⟩, h3⟩, h4⟩ := h
  unfold pyEscChar
  rw [if_neg h3, if_neg h4]
  rw [if_neg (by intro he; subst he; exact absurd h1 (by decide))]
  rw [if_neg (by intro he; subst he; exact absurd h1 (by decide))]
  rw [if_neg (by intro he; subst he; exact absurd h1 (by decide))]
  rw [if_neg (by omega), if_neg (by omega), if_neg (by omega), if_pos (by omega)]

theorem pyEscape_list {l : List Char} (h : ∀ c ∈ l, safeChar c = true) :
    (l.map pyEscChar).flatten = l := by
  induction l with
  | nil => rfl
  | cons c cs ih =>
    rw [List.map_cons, List.flatten_cons, pyEscChar_safe (h c (by simp)),
      ih (fun a ha => h a (by simp [ha])), List.singleton_append]

theorem pyEscape_safe {s : String} (h : safeStr s = true) : pyEscape s = s := by
  apply String.ext
  show (s.data.map pyEscChar).flatten = s.data
  simp only [safeStr, List.all_eq_true] at h
  exact pyEscape_list h

theorem isWsChar_not_numChar {c : Char} (h : isWsChar c = true) : numChar c = false := by
  simp only [isWsChar, Bool.or_eq_true, decide_eq_true_eq] at h
  rcases h with ((h | h) | h) | h <;> subst h <;> decide

theorem numChar_not_ws {c : Char} (h : numChar c = true) : isWsChar c = false := by
  by_contra hc
  simp only [Bool.not_eq_false] at hc
  rw [isWsChar_not_numChar hc] at h
  exact absurd h (by decide)

theorem numChar_excl {c : Char} (h : numChar c = true) :
    c ≠ '\x22' ∧ c ≠ '\x7b' ∧ c ≠ '[' ∧ c ≠ 't' ∧ c ≠ 'f' ∧ c ≠ 'n' ∧
      c ≠ ']' ∧ c ≠ '\x7d' ∧ c ≠ ',' ∧ c ≠ ':' := by
  refine ⟨?_, ?_, ?_, ?_, ?_, ?_, ?_, ?_, ?_, ?_⟩ <;>
    (intro he; subst he; exact absurd h (by decide))

/-! ### parser chunk lemmas -/

theorem skipWs_append {w : List Char} (hw : w.all isWsChar = true) (l : List Char) :
    skipWs (w ++ l) = skipWs l := by
  induction w with
  | nil => rfl
  | cons a w ih =>
    simp only [List.all_cons, Bool.and_eq_true] at hw
    simp only [List.cons_append, skipWs, List.dropWhile_cons, hw.1, if_true]
    exact ih hw.2

theorem skipWs_not_ws {c : Char} (h : isWsChar c = false) (l : List Char) :
    skipWs (c :: l) = c :: l := by
  simp [skipWs, List.dropWhile_cons, h]

theorem parseStrBody_safe {l : List Char} (hl : l.all safeChar = true) (r : List Char) :
    parseStrBody (l ++ '\x22' :: r) = some (l, r) := by
  induction l with
  | nil =>
    rw [List.nil_append, parseStrBody.eq_def]
    simp
  | cons c l ih =>
    simp only [List.all_cons, Bool.and_eq_true] at hl
    obtain ⟨hne1, hne2, hctl, -⟩ := safeChar_spec hl.1
    rw [List.cons_append, parseStrBody.eq_def]
    simp [hne1, hne2, hctl, ih hl.2]

theorem parseStrBody_escQuotes {l : List Char} (hl : l.all escSafeChar = true) (r : List Char) :
    parseStrBody ((l.map fun c => if c = '\x22' then ['\\', '\x22'] else [c]).flatten ++
      '\x22' :: r) = some (l, r) := by
  induction l with
  | nil =>
    rw [List.map_nil, List.flatten_nil, List.nil_append, parseStrBody.eq_def]
    simp
  | cons c l ih =>
    simp only [List.all_cons, Bool.and_eq_true] at hl
    obtain ⟨hne2, hctl, -⟩ := escSafeChar_spec hl.1
    have hl2 := hl.2
    by_cases hq : c = '\x22'
    · subst hq
      simp only [List.map_cons, if_pos rfl, List.flatten_cons, List.cons_append,
        List.append_assoc]
      rw [parseStrBody.eq_def]
      simp [escChar?, ih hl2]
    · simp only [List.map_cons, if_neg hq, List.flatten_cons, List.singleton_append,
        List.cons_append]
      rw [parseStrBody.eq_def]
      simp [hq, hne2, hctl, ih hl2]

theorem takeWhile_all_append {p : Char → Bool} {l r : List Char}
    (hl : l.all p = true) (hr : ∀ c, r.head? = some c → p c = false) :
    (l ++ r).takeWhile p = l ∧ (l ++ r).dropWhile p = r := by
  induction l with
  | nil =>
    cases r with
    | nil => simp
    | cons c rest =>
      have := hr c rfl
      simp [List.takeWhile_cons, List.dropWhile_cons, this]
  | cons a l ih =>
    simp only [List.all_cons, Bool.and_eq_true] at hl
    have h2 := ih hl.2
    simp [List.takeWhile_cons, List.dropWhile_cons, hl.1, h2.1, h2.2]

theorem parseJson_ws {fuel : Nat} (hf : 0 < fuel) {w : List Char}
    (hw : w.all isWsChar = true) (l : List Char) :
    parseJson fuel (w ++ l) = parseJson fuel l := by
  cases fuel with
  | zero => omega
  | succ f => simp only [parseJson, skipWs_append hw]

/-! ### JSON documents with explicit layout

`WJson` is proof infrastructure: a JSON tree annotated with the exact
whitespace of a document and with which string leaves are embedded through
`escQuotes`.  `renderW` produces the document text, `eraseW` the plain
value; the round-trip theorem below states that the parser recovers
`eraseW w` from `renderW w`.  Both the `json.dumps` output and the
hand-written pipeline template are `renderW` images. -/

mutual

inductive WJson where
  | wstr (s : String)
  | wstrE (s : String)
  | wnum (lit : String)
  | wobj (fields : WFields)
  | warr (elems : WElems)

inductive WFields where
  | fnil
  | fcons (wsK key wsC wsV : String) (val : WJson) (wsA : String) (rest : WFields)

inductive WElems where
  | enil
  | econs (wsV : String) (val : WJson) (wsA : String) (rest : WElems)

end

/-- The separator before the rendering of the remaining fields. -/
def fsep : WFields → String
  | .fnil => ""
  | .fcons .. => ","

/-- The separator before the rendering of the remaining elements. -/
def esep : WElems → String
  | .enil => ""
  | .econs .. => ","

mutual

def renderW : WJson → String
  | .wstr s => "\x22" ++ s ++ "\x22"
  | .wstrE s => "\x22" ++ escQuotes s ++ "\x22"
  | .wnum lit => lit
  | .wobj fs => "\x7b" ++ renderFields fs ++ "\x7d"
  | .warr es => "[" ++ renderElems es ++ "]"

def renderFields : WFields → String
  | .fnil => ""
  | .fcons wsK key wsC wsV v wsA rest =>
      wsK ++ "\x22" ++ key ++ "\x22" ++ wsC ++ ":" ++ wsV ++ renderW v ++ wsA ++
        fsep rest ++ renderFields rest

def renderElems : WElems → String
  | .enil => ""
  | .econs wsV v wsA rest => wsV ++ renderW v ++ wsA ++ esep rest ++ renderElems rest

end

mutual

def eraseW : WJson → JVal
  | .wstr s => .jstr s
  | .wstrE s => .jstr s
  | .wnum lit => .jnum lit
  | .wobj fs => .jobj (eraseFields fs)
  | .warr es => .jarr (eraseElems es)

def eraseFields : WFields → List (String × JVal)
  | .fnil => []
  | .fcons _ key _ _ v _ rest => (key, eraseW v) :: eraseFields rest

def eraseElems : WElems → List JVal
  | .enil => []
  | .econs _ v _ rest => eraseW v :: eraseElems rest

end

mutual

def wfW : WJson → Bool
  | .wstr s => safeStr s
  | .wstrE s => escSafeStr s
  | .wnum lit => goodNum lit
  | .wobj fs => wfFields fs
  | .warr es => wfElems es

def wfFields : WFields → Bool
  | .fnil => true
  | .fcons wsK key wsC wsV v wsA rest =>
      wsOnly wsK && safeStr key && wsOnly wsC && wsOnly wsV && wfW v && wsOnly wsA &&
        wfFields rest

def wfElems : WElems → Bool
  | .enil => true
  | .econs wsV v wsA rest => wsOnly wsV && wfW v && wsOnly wsA && wfElems rest

end

mutual

def sizeW : WJson → Nat
  | .wstr _ => 1
  | .wstrE _ => 1
  | .wnum _ => 1
  | .wobj fs => 2 + sizeFields fs
  | .warr es => 2 + sizeElems es

def sizeFields : WFields → Nat
  | .fnil => 0
  | .fcons _ _ _ _ v _ rest => 1 + sizeW v + sizeFields rest

def sizeElems : WElems → Nat
  | .enil => 0
  | .econs _ v _ rest => 1 + sizeW v + sizeElems rest

end

theorem data_quote : ("\x22" : String).data = ['\x22'] := rfl

theorem data_lbrace : ("\x7b" : String).data = ['\x7b'] := rfl

theorem data_rbrace : ("\x7d" : String).data = ['\x7d'] := rfl

theorem data_lbrack : ("[" : String).data = ['['] := rfl

theorem data_rbrack : ("]" : String).data = [']'] := rfl

theorem data_colon : (":" : String).data = [':'] := rfl

theorem data_comma : ("," : String).data = [','] := rfl

theorem data_empty : ("" : String).data = [] := rfl

/-- The first character of a rendered well-formed value: never whitespace
and never a closing delimiter, a comma or a colon. -/
theorem renderW_head (v : WJson) (hv : wfW v = true) :
    ∃ c cs, (renderW v).data = c :: cs ∧ isWsChar c = false ∧
      c ≠ ']' ∧ c ≠ '\x7d' ∧ c ≠ ',' ∧ c ≠ ':' := by
  cases v with
  | wstr s =>
    refine ⟨'\x22', s.data ++ ['\x22'], ?_, by decide, by decide, by decide, by decide,
      by decide⟩
    simp [renderW, String.data_append, data_quote]
  | wstrE s =>
    refine ⟨'\x22', (escQuotes s).data ++ ['\x22'], ?_, by decide, by decide, by decide,
      by decide, by decide⟩
    simp [renderW, String.data_append, data_quote]
  | wnum lit =>
    simp only [wfW, goodNum, Bool.and_eq_true] at hv
    obtain ⟨⟨hne, hall⟩, -⟩ := hv
    cases hd : lit.data with
    | nil => rw [hd] at hne; exact absurd hne (by decide)
    | cons c cs =>
      rw [hd] at hall
      have hcn : numChar c = true := by
        rw [List.all_cons, Bool.and_eq_true] at hall
        exact hall.1
      obtain ⟨-, -, -, -, -, -, h7, h8, h9, h10⟩ := numChar_excl hcn
      exact ⟨c, cs, by simp [renderW, hd], numChar_not_ws hcn, h7, h8, h9, h10⟩
  | wobj fs =>
    refine ⟨'\x7b', (renderFields fs).data ++ ['\x7d'], ?_, by decide, by decide, by decide,
      by decide, by decide⟩
    simp [renderW, String.data_append, data_lbrace, data_rbrace]
  | warr es =>
    refine ⟨'[', (renderElems es).data ++ [']'], ?_, by decide, by decide, by decide,
      by decide, by decide⟩
    simp [renderW, String.data_append, data_lbrack, data_rbrack]

/-! ### round-trip infrastructure -/

theorem mk_data (s : String) : String.mk s.data = s := rfl

/-- The continuation after a number token must not begin with a number
character (so the token ends where the rendering says it does). -/
def headNotNum (l : List Char) : Prop := ∀ c, l.head? = some c → numChar c = false

theorem headNotNum_nil : headNotNum [] := fun _ h => by simp at h

theorem headNotNum_cons {c0 : Char} (h : numChar c0 = false) (l : List Char) :
    headNotNum (c0 :: l) := by
  intro c hc
  simp only [List.head?_cons, Option.some.injEq] at hc
  rw [← hc]
  exact h

theorem headNotNum_ws_append {w : List Char} (hw : w.all isWsChar = true)
    {r : List Char} (hr : headNotNum r) : headNotNum (w ++ r) := by
  cases w with
  | nil => exact hr
  | cons a t =>
    simp only [List.all_cons, Bool.and_eq_true] at hw
    exact headNotNum_cons (isWsChar_not_numChar hw.1) _

theorem sizeW_pos (v : WJson) : 1 ≤ sizeW v := by
  cases v <;> simp [sizeW] <;> omega

mutual

/-- The parser recovers a well-formed layouted value from its rendering,
leaving the continuation untouched. -/
theorem parse_renderW (v : WJson) (hv : wfW v = true) :
    ∀ fuel, sizeW v ≤ fuel → ∀ rest, headNotNum rest →
      parseJson fuel ((renderW v).data ++ rest) = some (eraseW v, rest) := by
  cases v with
  | wstr s =>
    intro fuel hfuel rest _
    cases fuel with
    | zero => simp [sizeW] at hfuel
    | succ f =>
      have hs : safeStr s = true := hv
      have hdata : (renderW (WJson.wstr s)).data ++ rest =
          '\x22' :: (s.data ++ '\x22' :: rest) := by
        simp [renderW, String.data_append, data_quote]
      rw [hdata, parseJson, skipWs_not_ws (by decide)]
      simp [parseStrBody_safe hs, eraseW, mk_data]
  | wstrE s =>
    intro fuel hfuel rest _
    cases fuel with
    | zero => simp [sizeW] at hfuel
    | succ f =>
      have hs : escSafeStr s = true := hv
      have hdata : (renderW (WJson.wstrE s)).data ++ rest =
          '\x22' :: ((s.data.map fun c => if c = '\x22' then ['\\', '\x22'] else [c]).flatten
            ++ '\x22' :: rest) := by
        simp [renderW, escQuotes, String.data_append, data_quote]
      rw [hdata, parseJson, skipWs_not_ws (by decide)]
      simp [parseStrBody_escQuotes hs, eraseW, mk_data]
  | wnum lit =>
    intro fuel hfuel rest hrest
    cases fuel with
    | zero => simp [sizeW] at hfuel
    | succ f =>
      have hg : goodNum lit = true := hv
      simp only [goodNum, Bool.and_eq_true] at hg
      obtain ⟨⟨hne, hall⟩, hchk⟩ := hg
      cases hd : lit.data with
      | nil => rw [hd] at hne; exact absurd hne (by decide)
      | cons c cs =>
        have hallc := hall
        rw [hd, List.all_cons, Bool.and_eq_true] at hallc
        have hcn := hallc.1
        obtain ⟨e1, e2, e3, e4, e5, e6, -, -, -, -⟩ := numChar_excl hcn
        have hsplit := takeWhile_all_append (p := numChar) (l := c :: cs) (r := rest)
          (by rw [← hd]; exact hall) hrest
        have hdata : (renderW (WJson.wnum lit)).data ++ rest = c :: (cs ++ rest) := by
          simp [renderW, hd]
        rw [hdata, parseJson, skipWs_not_ws (numChar_not_ws hcn)]
        simp only [List.cons_append] at hsplit
        simp only [if_neg e1, if_neg e2, if_neg e3, if_neg e4, if_neg e5, if_neg e6]
        rw [hsplit.1, hsplit.2, ← hd, mk_data, hchk]
        simp [eraseW]
  | wobj fs =>
    intro fuel hfuel rest hrest
    have hw : wfFields fs = true := hv
    have hsz : 2 + sizeFields fs ≤ fuel := by simpa [sizeW] using hfuel
    cases fuel with
    | zero => omega
    | succ f =>
      have hdata : (renderW (WJson.wobj fs)).data ++ rest =
          '\x7b' :: ((renderFields fs).data ++ '\x7d' :: rest) := by
        simp [renderW, String.data_append, data_lbrace, data_rbrace]
      rw [hdata, parseJson, skipWs_not_ws (by decide)]
      simp only [if_neg (by decide : ¬('\x7b' : Char) = '\x22'), if_pos rfl]
      cases f with
      | zero => omega
      | succ f2 =>
        rw [parseObjRest]
        cases fs with
        | fnil =>
          have h0 : (renderFields WFields.fnil).data ++ '\x7d' :: rest = '\x7d' :: rest := by
            simp [renderFields]
          rw [h0, skipWs_not_ws (by decide)]
          simp [eraseW, eraseFields]
        | fcons wsK key wsC wsV v wsA rest' =>
          simp only [wfFields, Bool.and_eq_true] at hw
          have hwsK : wsOnly wsK = true := hw.1.1.1.1.1.1
          have hwf : wfFields (WFields.fcons wsK key wsC wsV v wsA rest') = true := hv
          have hdata2 : (renderFields (WFields.fcons wsK key wsC wsV v wsA rest')).data ++
              '\x7d' :: rest =
              wsK.data ++ ('\x22' :: (key.data ++ ('\x22' :: ((wsC ++ ":" ++ wsV ++ renderW v
                ++ wsA ++ fsep rest' ++ renderFields rest').data ++ '\x7d' :: rest)))) := by
            simp [renderFields, String.data_append, data_quote, List.append_assoc]
          rw [hdata2, skipWs_append hwsK, skipWs_not_ws (by decide)]
          simp only [if_neg (by decide : ¬('\x22' : Char) = '\x7d')]
          rw [← hdata2]
          refine parse_renderFields_go (WFields.fcons wsK key wsC wsV v wsA rest') hwf
            (by simp) f2 (by simp only [sizeFields] at hsz ⊢; omega) [] rest
  | warr es =>
    intro fuel hfuel rest hrest
    have hw : wfElems es = true := hv
    have hsz : 2 + sizeElems es ≤ fuel := by simpa [sizeW] using hfuel
    cases fuel with
    | zero => omega
    | succ f =>
      have hdata : (renderW (WJson.warr es)).data ++ rest =
          '[' :: ((renderElems es).data ++ ']' :: rest) := by
        simp [renderW, String.data_append, data_lbrack, data_rbrack]
      rw [hdata, parseJson, skipWs_not_ws (by decide)]
      simp only [if_neg (by decide : ¬('[' : Char) = '\x22'),
        if_neg (by decide : ¬('[' : Char) = '\x7b'), if_pos rfl]
      cases f with
      | zero => omega
      | succ f2 =>
        rw [parseArrRest]
        cases es with
        | enil =>
          have h0 : (renderElems WElems.enil).data ++ ']' :: rest = ']' :: rest := by
            simp [renderElems]
          rw [h0, skipWs_not_ws (by decide)]
          simp [eraseW, eraseElems]
        | econs wsV v wsA rest' =>
          simp only [wfElems, Bool.and_eq_true] at hw
          have hwsV : wsOnly wsV = true := hw.1.1.1
          have hvv : wfW v = true := hw.1.1.2
          have hwf : wfElems (WElems.econs wsV v wsA rest') = true := hv
          obtain ⟨c, cs, hcs, hcw, hc1, hc2, hc3, hc4⟩ := renderW_head v hvv
          have hdata2 : (renderElems (WElems.econs wsV v wsA rest')).data ++ ']' :: rest =
              wsV.data ++ (c :: (cs ++ ((wsA ++ esep rest' ++ renderElems rest').data
                ++ ']' :: rest))) := by
            simp [renderElems, String.data_append, List.append_assoc, hcs]
          rw [hdata2, skipWs_append hwsV, skipWs_not_ws hcw]
          simp only [if_neg hc1]
          rw [← hdata2]
          refine parse_renderElems_go (WElems.econs wsV v wsA rest') hwf
            (by simp) f2 (by simp only [sizeElems] at hsz ⊢; omega) [] rest

/-- Members parsing recovers the fields from their rendering followed by a
closing brace. -/
theorem parse_renderFields_go (fs : WFields) (hw : wfFields fs = true)
    (hne : fs ≠ WFields.fnil) :
    ∀ fuel, sizeFields fs ≤ fuel → ∀ acc rest,
      parseMembers fuel ((renderFields fs).data ++ '\x7d' :: rest) acc =
        some (JVal.jobj (acc ++ eraseFields fs), rest) := by
  cases fs with
  | fnil => exact absurd rfl hne
  | fcons wsK key wsC wsV v wsA rest' =>
    intro fuel hfuel acc rest
    simp only [wfFields, Bool.and_eq_true] at hw
    obtain ⟨⟨⟨⟨⟨⟨hwsK, hkey⟩, hwsC⟩, hwsV⟩, hvv⟩, hwsA⟩, hrest'⟩ := hw
    have hsz : 1 + sizeW v + sizeFields rest' ≤ fuel := by
      simpa [sizeFields] using hfuel
    cases fuel with
    | zero => omega
    | succ f =>
      have hdata : (renderFields (WFields.fcons wsK key wsC wsV v wsA rest')).data ++
          '\x7d' :: rest =
          wsK.data ++ ('\x22' :: (key.data ++ ('\x22' :: (wsC.data ++ (':' :: (wsV.data ++
            ((renderW v).data ++ (wsA.data ++ ((fsep rest').data ++
              ((renderFields rest').data ++ '\x7d' :: rest)))))))))) := by
        simp [renderFields, String.data_append, data_quote, data_colon, List.append_assoc]
      have hT : headNotNum ((fsep rest').data ++
          ((renderFields rest').data ++ '\x7d' :: rest)) := by
        cases rest' with
        | fnil =>
          simp only [fsep, renderFields, data_empty, List.nil_append]
          exact headNotNum_cons (by decide) _
        | fcons a2 b2 c2 d2 e2 g2 r2 =>
          simp only [fsep, data_comma, List.cons_append, List.nil_append]
          exact headNotNum_cons (by decide) _
      have hf0 : 0 < f := by have := sizeW_pos v; omega
      have hpj : parseJson f (wsV.data ++ ((renderW v).data ++ (wsA.data ++
          ((fsep rest').data ++ ((renderFields rest').data ++ '\x7d' :: rest))))) =
          some (eraseW v, wsA.data ++ ((fsep rest').data ++
            ((renderFields rest').data ++ '\x7d' :: rest))) := by
        rw [parseJson_ws hf0 hwsV]
        exact parse_renderW v hvv f (by omega) _ (headNotNum_ws_append hwsA hT)
      rw [parseMembers, hdata, skipWs_append hwsK, skipWs_not_ws (by decide)]
      cases rest' with
      | fnil =>
        simp only [fsep, renderFields, data_empty, List.nil_append] at hpj ⊢
        simp [parseStrBody_safe hkey, skipWs_append hwsC,
          skipWs_not_ws (show isWsChar ':' = false by decide), hpj,
          skipWs_append hwsA, skipWs_not_ws (show isWsChar '\x7d' = false by decide),
          mk_data, eraseFields]
      | fcons a2 b2 c2 d2 e2 g2 r2 =>
        have hrec := parse_renderFields_go (WFields.fcons a2 b2 c2 d2 e2 g2 r2) hrest'
          (by simp) f (by simp only [sizeFields] at hsz ⊢; omega)
          (acc ++ [(key, eraseW v)]) rest
        simp only [fsep, data_comma, List.cons_append, List.nil_append] at hpj ⊢
        simp [parseStrBody_safe hkey, skipWs_append hwsC,
          skipWs_not_ws (show isWsChar ':' = false by decide), hpj,
          skipWs_append hwsA, skipWs_not_ws (show isWsChar ',' = false by decide),
          mk_data, hrec, eraseFields, List.append_assoc]

/-- Elements parsing recovers the elements from their rendering followed by
a closing bracket. -/
theorem parse_renderElems_go (es : WElems) (hw : wfElems es = true)
    (hne : es ≠ WElems.enil) :
    ∀ fuel, sizeElems es ≤ fuel → ∀ acc rest,
      parseElems fuel ((renderElems es).data ++ ']' :: rest) acc =
        some (JVal.jarr (acc ++ eraseElems es), rest) := by
  cases es with
  | enil => exact absurd rfl hne
  | econs wsV v wsA rest' =>
    intro fuel hfuel acc rest
    simp only [wfElems, Bool.and_eq_true] at hw
    obtain ⟨⟨⟨hwsV, hvv⟩, hwsA⟩, hrest'⟩ := hw
    have hsz : 1 + sizeW v + sizeElems rest' ≤ fuel := by
      simpa [sizeElems] using hfuel
    cases fuel with
    | zero => omega
    | succ f =>
      have hdata : (renderElems (WElems.econs wsV v wsA rest')).data ++ ']' :: rest =
          wsV.data ++ ((renderW v).data ++ (wsA.data ++ ((esep rest').data ++
            ((renderElems rest').data ++ ']' :: rest)))) := by
        simp [renderElems, String.data_append, List.append_assoc]
      have hT : headNotNum ((esep rest').data ++
          ((renderElems rest').data ++ ']' :: rest)) := by
        cases rest' with
        | enil =>
          simp only [esep, renderElems, data_empty, List.nil_append]
          exact headNotNum_cons (by decide) _
        | econs a2 b2 c2 r2 =>
          simp only [esep, data_comma, List.cons_append, List.nil_append]
          exact headNotNum_cons (by decide) _
      have hf0 : 0 < f := by have := sizeW_pos v; omega
      have hpj : parseJson f ((renderElems (WElems.econs wsV v wsA rest')).data ++
          ']' :: rest) =
          some (eraseW v, wsA.data ++ ((esep rest').data ++
            ((renderElems rest').data ++ ']' :: rest))) := by
        rw [hdata, parseJson_ws hf0 hwsV]
        exact parse_renderW v hvv f (by omega) _ (headNotNum_ws_append hwsA hT)
      rw [parseElems, hpj]
      cases rest' with
      | enil =>
        simp only [esep, renderElems, data_empty, List.nil_append]
        simp [skipWs_append hwsA, skipWs_not_ws (show isWsChar ']' = false by decide),
          eraseElems]
      | econs a2 b2 c2 r2 =>
        have hrec := parse_renderElems_go (WElems.econs a2 b2 c2 r2) hrest'
          (by simp) f (by simp only [sizeElems] at hsz ⊢; omega)
          (acc ++ [eraseW v]) rest
        simp only [esep, data_comma, List.cons_append]
        simp [skipWs_append hwsA, skipWs_not_ws (show isWsChar ',' = false by decide),
          hrec, eraseElems, List.append_assoc]

end

/-! ### whole-document round trip -/

mutual

theorem sizeW_le_render (v : WJson) : sizeW v ≤ 2 * (renderW v).length + 1 := by
  cases v with
  | wstr s => simp [sizeW]
  | wstrE s => simp [sizeW]
  | wnum lit => simp [sizeW]
  | wobj fs =>
    have h := sizeFields_le_render fs
    have e1 : ("\x7b" : String).length = 1 := rfl
    have e2 : ("\x7d" : String).length = 1 := rfl
    simp only [sizeW, renderW, String.length_append, e1, e2]
    omega
  | warr es =>
    have h := sizeElems_le_render es
    have e1 : ("[" : String).length = 1 := rfl
    have e2 : ("]" : String).length = 1 := rfl
    simp only [sizeW, renderW, String.length_append, e1, e2]
    omega

theorem sizeFields_le_render (fs : WFields) : sizeFields fs ≤ 2 * (renderFields fs).length := by
  cases fs with
  | fnil => simp [sizeFields, renderFields]
  | fcons wsK key wsC wsV v wsA rest =>
    have h1 := sizeW_le_render v
    have h2 := sizeFields_le_render rest
    have e1 : ("\x22" : String).length = 1 := rfl
    have e2 : (":" : String).length = 1 := rfl
    simp only [sizeFields, renderFields, String.length_append, e1, e2]
    omega

theorem sizeElems_le_render (es : WElems) : sizeElems es ≤ 2 * (renderElems es).length + 2 := by
  cases es with
  | enil => simp [sizeElems, renderElems]
  | econs wsV v wsA rest =>
    have h1 := sizeW_le_render v
    have h2 := sizeElems_le_render rest
    cases rest with
    | enil =>
      simp only [sizeElems, renderElems, esep, String.length_append]
      have e0 : ("" : String).length = 0 := rfl
      simp only [e0, sizeElems] at *
      omega
    | econs wsV2 v2 wsA2 rest2 =>
      have e1 : ("," : String).length = 1 := rfl
      simp only [sizeElems, renderElems, esep, String.length_append, e1] at h2 ⊢
      omega

end

/-- A well-formed layouted document parses, as a whole document, to its
erasure. -/
theorem parseTop_renderW (w : WJson) (hw : wfW w = true) :
    parseTop (renderW w) = some (eraseW w) := by
  unfold parseTop
  have h := parse_renderW w hw (2 * (renderW w).data.length + 2)
    (by
      have h1 := sizeW_le_render w
      have h2 : (renderW w).data.length = (renderW w).length := rfl
      omega) [] headNotNum_nil
  rw [List.append_nil] at h
  rw [h]
  simp [skipWs]

/-! ### the parameter bundle as a layouted document -/

theorem safeChar_escSafe {c : Char} (h : safeChar c = true) : escSafeChar c = true := by
  simp only [safeChar, Bool.and_eq_true, decide_eq_true_eq] at h
  simp only [escSafeChar, Bool.and_eq_true, decide_eq_true_eq]
  exact ⟨⟨h.1.1.1, h.1.1.2⟩, h.2⟩

theorem numChar_escSafe {c : Char} (h : numChar c = true) : escSafeChar c = true := by
  simp only [numChar, Bool.or_eq_true, Bool.and_eq_true, decide_eq_true_eq] at h
  simp only [escSafeChar, Bool.and_eq_true, decide_eq_true_eq]
  rcases h with ((((⟨h1, h2⟩ | h) | h) | h) | h) | h
  · have h1' : 48 ≤ c.toNat := by simp [Char.le_def] at h1; exact h1
    have h2' : c.toNat ≤ 57 := by simp [Char.le_def] at h2; exact h2
    refine ⟨⟨by omega, by omega⟩, ?_⟩
    intro he
    subst he
    exact absurd h2' (by decide)
  all_goals subst h
  all_goals decide

theorem safeStr_escSafe {s : String} (h : safeStr s = true) : escSafeStr s = true := by
  simp only [safeStr, List.all_eq_true] at h
  simp only [escSafeStr, List.all_eq_true]
  exact fun c hc => safeChar_escSafe (h c hc)

theorem escSafeStr_append (a b : String) :
    escSafeStr (a ++ b) = (escSafeStr a && escSafeStr b) := by
  simp [escSafeStr, String.data_append, List.all_append]

theorem safeStr_append (a b : String) :
    safeStr (a ++ b) = (safeStr a && safeStr b) := by
  simp [safeStr, String.data_append, List.all_append]

/-- The plain value of a scalar. -/
def scalVal : PyScalar → JVal
  | .pstr s => .jstr s
  | .pnum lit => .jnum lit

/-- The layouted value of a scalar. -/
def scalW : PyScalar → WJson
  | .pstr s => .wstr s
  | .pnum lit => .wnum lit

/-- Safety of one scalar: a safe string, or a good numeral. -/
def scalSafe : PyScalar → Bool
  | .pstr s => safeStr s
  | .pnum lit => goodNum lit

/-- Safety of a flat dict: safe keys and safe scalar values. -/
def dictSafe (d : List (String × PyScalar)) : Bool :=
  d.all fun kv => safeStr kv.1 && scalSafe kv.2

/-- The `json.dumps` layout of the fields after the first (item separator
`", "` contributes the leading space of each later key). -/
def dictWtail : List (String × PyScalar) → WFields
  | [] => .fnil
  | kv :: rest => .fcons " " kv.1 "" " " (scalW kv.2) "" (dictWtail rest)

/-- The `json.dumps` layout of all fields. -/
def dictW : List (String × PyScalar) → WFields
  | [] => .fnil
  | kv :: rest => .fcons "" kv.1 "" " " (scalW kv.2) "" (dictWtail rest)

theorem renderW_scalW {v : PyScalar} (h : scalSafe v = true) :
    dumpScalar v = renderW (scalW v) := by
  cases v with
  | pstr s => simp [dumpScalar, scalW, renderW, pyEscape_safe h]
  | pnum lit => simp [dumpScalar, scalW, renderW]

theorem dumpPair_eq {kv : String × PyScalar}
    (h1 : safeStr kv.1 = true) (h2 : scalSafe kv.2 = true) :
    dumpPair kv = "\x22" ++ kv.1 ++ "\x22" ++ ":" ++ " " ++ renderW (scalW kv.2) := by
  apply String.ext
  simp [dumpPair, pyEscape_safe h1, renderW_scalW h2, String.data_append]

theorem renderFields_dictWtail (d : List (String × PyScalar)) (hd : d ≠ []) :
    renderFields (dictWtail d) = " " ++ renderFields (dictW d) := by
  cases d with
  | nil => exact absurd rfl hd
  | cons kv rest =>
    apply String.ext
    simp [dictWtail, dictW, renderFields, String.data_append]

theorem dumpPairs_eq_renderFields (d : List (String × PyScalar)) (hd : dictSafe d = true) :
    dumpPairs d = renderFields (dictW d) := by
  induction d with
  | nil => rfl
  | cons kv rest ih =>
    simp only [dictSafe, List.all_cons, Bool.and_eq_true] at hd
    obtain ⟨⟨h1, h2⟩, hrest⟩ := hd
    cases rest with
    | nil =>
      apply String.ext
      simp [dumpPairs, dictW, dictWtail, renderFields, fsep, dumpPair_eq h1 h2,
        String.data_append]
    | cons kv2 rest2 =>
      have ihr := ih hrest
      apply String.ext
      simp [dumpPairs, dictW, dictWtail, renderFields, fsep, dumpPair_eq h1 h2,
        String.data_append, ihr]

theorem wfW_scalW {v : PyScalar} (h : scalSafe v = true) : wfW (scalW v) = true := by
  cases v with
  | pstr s => exact h
  | pnum lit => exact h

theorem eraseW_scalW (v : PyScalar) : eraseW (scalW v) = scalVal v := by
  cases v <;> rfl

theorem wfFields_dictWtail (d : List (String × PyScalar)) (hd : dictSafe d = true) :
    wfFields (dictWtail d) = true := by
  induction d with
  | nil => rfl
  | cons kv rest ih =>
    simp only [dictSafe, List.all_cons, Bool.and_eq_true] at hd
    obtain ⟨⟨h1, h2⟩, hrest⟩ := hd
    have w1 : wsOnly "" = true := rfl
    have w2 : wsOnly " " = true := rfl
    simp [dictWtail, wfFields, h1, wfW_scalW h2, ih hrest, w1, w2]

theorem wfW_dictW (d : List (String × PyScalar)) (hd : dictSafe d = true) :
    wfW (.wobj (dictW d)) = true := by
  cases d with
  | nil => rfl
  | cons kv rest =>
    simp only [dictSafe, List.all_cons, Bool.and_eq_true] at hd
    obtain ⟨⟨h1, h2⟩, hrest⟩ := hd
    have w1 : wsOnly "" = true := rfl
    have w2 : wsOnly " " = true := rfl
    have hwf : wfW (WJson.wobj (dictW (kv :: rest))) = wfFields (dictW (kv :: rest)) := rfl
    rw [hwf]
    simp [dictW, wfFields, h1, wfW_scalW h2, wfFields_dictWtail rest hrest, w1, w2]

theorem eraseFields_dictWtail (d : List (String × PyScalar)) :
    eraseFields (dictWtail d) = d.map fun kv => (kv.1, scalVal kv.2) := by
  induction d with
  | nil => rfl
  | cons kv rest ih => simp [dictWtail, eraseFields, eraseW_scalW, ih]

theorem eraseFields_dictW (d : List (String × PyScalar)) :
    eraseFields (dictW d) = d.map fun kv => (kv.1, scalVal kv.2) := by
  cases d with
  | nil => rfl
  | cons kv rest => simp [dictW, eraseFields, eraseW_scalW, eraseFields_dictWtail]

theorem goodNum_escSafe {lit : String} (h : goodNum lit = true) :
    escSafeStr lit = true := by
  simp only [goodNum, Bool.and_eq_true] at h
  simp only [escSafeStr, List.all_eq_true]
  have hall := h.1.2
  simp only [List.all_eq_true] at hall
  exact fun c hc => numChar_escSafe (hall c hc)

theorem scalSafe_escSafe {v : PyScalar} (h : scalSafe v = true) :
    escSafeStr (dumpScalar v) = true := by
  cases v with
  | pstr s =>
    have hq : escSafeStr "\x22" = true := rfl
    simp [dumpScalar, escSafeStr_append, pyEscape_safe h, safeStr_escSafe h, hq]
  | pnum lit => exact goodNum_escSafe h

theorem escSafe_dumpPairs (d : List (String × PyScalar)) (hd : dictSafe d = true) :
    escSafeStr (dumpPairs d) = true := by
  induction d with
  | nil => rfl
  | cons kv rest ih =>
    simp only [dictSafe, List.all_cons, Bool.and_eq_true] at hd
    obtain ⟨⟨h1, h2⟩, hrest⟩ := hd
    have hq : escSafeStr "\x22" = true := rfl
    have hcsp : escSafeStr ": " = true := rfl
    have hcomma : escSafeStr ", " = true := rfl
    have hp : escSafeStr (dumpPair kv) = true := by
      simp [dumpPair, escSafeStr_append, pyEscape_safe h1, safeStr_escSafe h1,
        scalSafe_escSafe h2, hq, hcsp]
    cases rest with
    | nil => exact hp
    | cons kv2 rest2 =>
      simp [dumpPairs, escSafeStr_append, hp, hcomma, ih hrest]

theorem escSafe_dumps (d : List (String × PyScalar)) (hd : dictSafe d = true) :
    escSafeStr (pyJsonDumps d) = true := by
  have h1 : escSafeStr "\x7b" = true := rfl
  have h2 : escSafeStr "\x7d" = true := rfl
  simp [pyJsonDumps, escSafeStr_append, escSafe_dumpPairs d hd, h1, h2]

/-- `json.dumps` of a safe flat dict parses back, as a whole document, to
exactly its entries, in order. -/
theorem parseTop_dumps (d : List (String × PyScalar)) (hd : dictSafe d = true) :
    parseTop (pyJsonDumps d) = some (.jobj (d.map fun kv => (kv.1, scalVal kv.2))) := by
  have hb : pyJsonDumps d = renderW (.wobj (dictW d)) := by
    simp [pyJsonDumps, renderW, dumpPairs_eq_renderFields d hd]
  rw [hb, parseTop_renderW _ (wfW_dictW d hd)]
  have he : eraseW (.wobj (dictW d)) = .jobj (eraseFields (dictW d)) := rfl
  rw [he, eraseFields_dictW]

/-! ### the pipeline document as a layouted document -/

/-- The reader stage of the template, with its exact layout. -/
def stage1W (input : PPath) : WJson :=
  .wobj (.fcons "\n      " "type" "" " " (.wstr "readers.las") "" (
         .fcons "\n      " "filename" "" " " (.wstr (PPath.asPosix input)) "\n    " .fnil))

/-- The colorization stage of the template, with its exact layout; the
parameter bundle is embedded through `escQuotes`. -/
def stage2W (scriptDir : String) (P : WmsParams) : WJson :=
  .wobj (.fcons "\n      " "type" "" " " (.wstr "filters.python") "" (
         .fcons "\n      " "script" "" " " (.wstr (scriptDir ++ "/pdal_colorize.py")) "" (
         .fcons "\n      " "function" "" " " (.wstr "las_colorize") "" (
         .fcons "\n      " "module" "" " " (.wstr "anything") "" (
         .fcons "\n      " "pdalargs" "" " "
           (.wstrE (pyJsonDumps (pdalargsDict P))) "\n    " .fnil)))))

/-- The writer stage of the template, with its exact layout. -/
def stage3W (P : WmsParams) (output : PPath) : WJson :=
  .wobj (.fcons "\n      " "type" "" " " (.wstr "writers.las") "" (
         .fcons "\n      " "a_srs" "" " " (.wstr P.las_srs) "" (
         .fcons "\n      " "filename" "" " " (.wstr (PPath.asPosix output)) "\n    " .fnil)))

/-- The whole template, with its exact layout. -/
def pipelineW (scriptDir : String) (input output : PPath) (P : WmsParams) : WJson :=
  .wobj (.fcons "\n  " "pipeline" "" "" (.warr (
    .econs "\n    " (stage1W input) "" (
    .econs "\n    " (stage2W scriptDir P) "" (
    .econs "\n    " (stage3W P output) "\n  " .enil)))) "\n" .fnil)

set_option maxRecDepth 8192 in
/-- The template-built pipeline string is exactly the rendering of the
layouted pipeline document. -/
theorem pipelineJson_eq_renderW (sd : String) (i o : PPath) (P : WmsParams) :
    pipelineJsonOf sd i o P = renderW (pipelineW sd i o P) := by
  apply String.ext
  simp [pipelineJsonOf, PDAL_PIPELINE_format, pipeChunk0, pipeChunk1, pipeChunk2,
    pipeChunk3, pipeChunk4, pipeChunk5, pipelineW, stage1W, stage2W, stage3W, renderW,
    renderFields, renderElems, fsep, esep, String.data_append, List.append_assoc]

/-- The plain JSON value of the pipeline document: exactly three stages, in
reader / colorize / writer order. -/
def pipelineVal (sd : String) (i o : PPath) (P : WmsParams) : JVal :=
  .jobj [("pipeline", .jarr [
    .jobj [("type", .jstr "readers.las"), ("filename", .jstr (PPath.asPosix i))],
    .jobj [("type", .jstr "filters.python"), ("script", .jstr (sd ++ "/pdal_colorize.py")),
           ("function", .jstr "las_colorize"), ("module", .jstr "anything"),
           ("pdalargs", .jstr (pyJsonDumps (pdalargsDict P)))],
    .jobj [("type", .jstr "writers.las"), ("a_srs", .jstr P.las_srs),
           ("filename", .jstr (PPath.asPosix o))]])]

theorem eraseW_pipelineW (sd : String) (i o : PPath) (P : WmsParams) :
    eraseW (pipelineW sd i o P) = pipelineVal sd i o P := rfl

/-- Safety of the eight caller parameters: the six strings are printable
ASCII without quotes or backslashes, the two numerals are well-formed JSON
numerals. -/
def safeParams (P : WmsParams) : Bool :=
  safeStr P.las_srs && safeStr P.wms_url && safeStr P.wms_layer && safeStr P.wms_srs &&
    safeStr P.wms_version && safeStr P.wms_format && goodNum P.wms_pixel_size &&
    goodNum P.wms_max_image_size

theorem dictSafe_pdalargs (P : WmsParams) (h : safeParams P = true) :
    dictSafe (pdalargsDict P) = true := by
  simp only [safeParams, Bool.and_eq_true] at h
  obtain ⟨⟨⟨⟨⟨⟨⟨hlas, hurl⟩, hlay⟩, hsrs⟩, hver⟩, hfmt⟩, hpix⟩, hmax⟩ := h
  have k1 : safeStr "wms_url" = true := rfl
  have k2 : safeStr "wms_layer" = true := rfl
  have k3 : safeStr "wms_srs" = true := rfl
  have k4 : safeStr "wms_version" = true := rfl
  have k5 : safeStr "wms_format" = true := rfl
  have k6 : safeStr "wms_pixel_size" = true := rfl
  have k7 : safeStr "wms_max_image_size" = true := rfl
  have k8 : safeStr "las_srs" = true := rfl
  simp [dictSafe, pdalargsDict, scalSafe, hlas, hurl, hlay, hsrs, hver, hfmt, hpix, hmax,
    k1, k2, k3, k4, k5, k6, k7, k8]

theorem wfW_pipelineW (sd : String) (i o : PPath) (P : WmsParams)
    (hsd : safeStr sd = true) (hi : safeStr (PPath.asPosix i) = true)
    (ho : safeStr (PPath.asPosix o) = true) (hP : safeParams P = true) :
    wfW (pipelineW sd i o P) = true := by
  have hlas : safeStr P.las_srs = true := by
    simp only [safeParams, Bool.and_eq_true] at hP
    exact hP.1.1.1.1.1.1.1
  have hscript : safeStr (sd ++ "/pdal_colorize.py") = true := by
    rw [safeStr_append]
    have : safeStr "/pdal_colorize.py" = true := rfl
    simp [hsd, this]
  have hdump : escSafeStr (pyJsonDumps (pdalargsDict P)) = true :=
    escSafe_dumps _ (dictSafe_pdalargs P hP)
  have w1 : wsOnly "" = true := rfl
  have w2 : wsOnly " " = true := rfl
  have w3 : wsOnly "\n" = true := rfl
  have w4 : wsOnly "\n  " = true := rfl
  have w5 : wsOnly "\n    " = true := rfl
  have w6 : wsOnly "\n      " = true := rfl
  have s1 : safeStr "pipeline" = true := rfl
  have s2 : safeStr "type" = true := rfl
  have s3 : safeStr "readers.las" = true := rfl
  have s4 : safeStr "filename" = true := rfl
  have s5 : safeStr "filters.python" = true := rfl
  have s6 : safeStr "script" = true := rfl
  have s7 : safeStr "function" = true := rfl
  have s8 : safeStr "las_colorize" = true := rfl
  have s9 : safeStr "module" = true := rfl
  have s10 : safeStr "anything" = true := rfl
  have s11 : safeStr "pdalargs" = true := rfl
  have s12 : safeStr "writers.las" = true := rfl
  have s13 : safeStr "a_srs" = true := rfl
  simp [pipelineW, stage1W, stage2W, stage3W, wfW, wfFields, wfElems, hsd, hi, ho, hlas,
    hscript, hdump, w1, w2, w3, w4, w5, w6, s1, s2, s3, s4, s5, s6, s7, s8, s9, s10,
    s11, s12, s13]

/-- For safe paths and parameters, the assembled pipeline description is a
valid JSON document parsing to the three-stage pipeline value. -/
theorem parseTop_pipeline (sd : String) (i o : PPath) (P : WmsParams)
    (hsd : safeStr sd = true) (hi : safeStr (PPath.asPosix i) = true)
    (ho : safeStr (PPath.asPosix o) = true) (hP : safeParams P = true) :
    parseTop (pipelineJsonOf sd i o P) = some (pipelineVal sd i o P) := by
  rw [pipelineJson_eq_renderW, parseTop_renderW _ (wfW_pipelineW sd i o P hsd hi ho hP),
    eraseW_pipelineW]

/-- Field lookup in a parsed JSON object. -/
def getField : JVal → String → Option JVal
  | .jobj fs, k => (fs.find? fun kv => kv.1 == k).map fun kv => kv.2
  | _, _ => none

/-- Element lookup in a parsed JSON array. -/
def getIdx : JVal → Nat → Option JVal
  | .jarr es, n => es.get? n
  | _, _ => none

/-! ### claims C5 and C3 -/

/-- C5: for printable-ASCII parameters free of quotes and backslashes, the
description handed to the engine parses as a JSON document with exactly
three stages in fixed order — a LAS reader on the input file, the python
colorization filter carrying the parameter bundle, and a LAS writer on the
output file tagged with `a_srs` — and the engine trace is the validate
event alone or the validate event followed by the execute event, so
validation always precedes execution. -/
theorem C5_pipeline_stages (eng : Engine) (sd : String) (i o : PPath) (P : WmsParams)
    (hsd : safeStr sd = true) (hi : safeStr (PPath.asPosix i) = true)
    (ho : safeStr (PPath.asPosix o) = true) (hP : safeParams P = true) :
    parseTop (pipelineJsonOf sd i o P) = some (.jobj [("pipeline", .jarr [
      .jobj [("type", .jstr "readers.las"), ("filename", .jstr (PPath.asPosix i))],
      .jobj [("type", .jstr "filters.python"),
             ("script", .jstr (sd ++ "/pdal_colorize.py")),
             ("function", .jstr "las_colorize"), ("module", .jstr "anything"),
             ("pdalargs", .jstr (pyJsonDumps (pdalargsDict P)))],
      .jobj [("type", .jstr "writers.las"), ("a_srs", .jstr P.las_srs),
             ("filename", .jstr (PPath.asPosix o))]])]) ∧
    ((run_pdal eng sd i o P).1 =
        [EngineEvent.validate (pipelineJsonOf sd i o P)] ∨
      (run_pdal eng sd i o P).1 =
        [EngineEvent.validate (pipelineJsonOf sd i o P),
         EngineEvent.execute (pipelineJsonOf sd i o P)]) := by
  constructor
  · exact parseTop_pipeline sd i o P hsd hi ho hP
  · unfold run_pdal
    cases hv : eng.validateRes (pipelineJsonOf sd i o P) with
    | some m => simp [hv]
    | none => cases he : eng.executeRes (pipelineJsonOf sd i o P) <;> simp [hv, he]

/-- C5 witness: the concrete default-like run. -/
theorem C5_pipeline_stages_witness :
    parseTop (pipelineJsonOf "sd" ["in.las"] ["out.las"] Pc) =
      some (.jobj [("pipeline", .jarr [
        .jobj [("type", .jstr "readers.las"),
               ("filename", .jstr (PPath.asPosix ["in.las"]))],
        .jobj [("type", .jstr "filters.python"),
               ("script", .jstr ("sd" ++ "/pdal_colorize.py")),
               ("function", .jstr "las_colorize"), ("module", .jstr "anything"),
               ("pdalargs", .jstr (pyJsonDumps (pdalargsDict Pc)))],
        .jobj [("type", .jstr "writers.las"), ("a_srs", .jstr Pc.las_srs),
               ("filename", .jstr (PPath.asPosix ["out.las"]))]])]) :=
  (C5_pipeline_stages engOk "sd" ["in.las"] ["out.las"] Pc
    (by decide) (by decide) (by decide) (by decide)).1

/-- Parameters with a double quote in `wms_url`, breaking the document. -/
def PcBad : WmsParams := ⟨"E", "a\x22b", "L", "E", "1", "i", "0.25", "1000"⟩

set_option maxRecDepth 100000 in
/-- C3 counterexample: for the caller parameter `wms_url = "a\x22b"` the
quote-escaping scheme collides with the `json.dumps` escaping, and the
assembled pipeline document is not valid JSON at all, so the claimed
round-trip for every choice of the eight parameters fails. -/
theorem C3_counterexample :
    parseTop (pipelineJsonOf "sd" ["i.las"] ["o.las"] PcBad) = none := by
  rfl

/-- C3 (amended): for caller parameters that are printable ASCII without
double quotes or backslashes (numerals being well-formed JSON numerals),
the outer pipeline document is valid JSON, its second stage carries the
bundle as the string produced by `json.dumps` (the outer parse undoes the
quote escaping), and that string parses back to exactly the eight caller
fields. -/
theorem C3_bundle_roundtrip (sd : String) (i o : PPath) (P : WmsParams)
    (hsd : safeStr sd = true) (hi : safeStr (PPath.asPosix i) = true)
    (ho : safeStr (PPath.asPosix o) = true) (hP : safeParams P = true) :
    parseTop (pipelineJsonOf sd i o P) = some (pipelineVal sd i o P) ∧
    (((parseTop (pipelineJsonOf sd i o P)).bind
        (fun doc => getField doc "pipeline")).bind (fun arr => getIdx arr 1)).bind
      (fun st => getField st "pdalargs") =
      some (.jstr (pyJsonDumps (pdalargsDict P))) ∧
    parseTop (pyJsonDumps (pdalargsDict P)) =
      some (.jobj [("wms_url", .jstr P.wms_url), ("wms_layer", .jstr P.wms_layer),
        ("wms_srs", .jstr P.wms_srs), ("wms_version", .jstr P.wms_version),
        ("wms_format", .jstr P.wms_format), ("wms_pixel_size", .jnum P.wms_pixel_size),
        ("wms_max_image_size", .jnum P.wms_max_image_size),
        ("las_srs", .jstr P.las_srs)]) := by
  have hp := parseTop_pipeline sd i o P hsd hi ho hP
  refine ⟨hp, ?_, ?_⟩
  · rw [hp]
    simp [pipelineVal, getField, getIdx, Option.bind]
  · rw [parseTop_dumps (pdalargsDict P) (dictSafe_pdalargs P hP)]
    rfl

/-- C3 witness: the round trip at the concrete default-like parameters. -/
theorem C3_bundle_roundtrip_witness :
    parseTop (pyJsonDumps (pdalargsDict Pc)) =
      some (.jobj [("wms_url", .jstr Pc.wms_url), ("wms_layer", .jstr Pc.wms_layer),
        ("wms_srs", .jstr Pc.wms_srs), ("wms_version", .jstr Pc.wms_version),
        ("wms_format", .jstr Pc.wms_format), ("wms_pixel_size", .jnum Pc.wms_pixel_size),
        ("wms_max_image_size", .jnum Pc.wms_max_image_size),
        ("las_srs", .jstr Pc.las_srs)]) :=
  (C3_bundle_roundtrip "sd" ["i.las"] ["o.las"] Pc
    (by decide) (by decide) (by decide) (by decide)).2.2
